import Mathlib

/-!
# Verification of the data-compare reconciliation engine

Shallow embedding of the CSV comparison engine of this repository
(`normalizeValue`, `getNormalizedRow`, `processSource`, `runComparison`
from `services/csvService`, plus the `handleRun` guard of `App.tsx`)
together with proofs of the behavioural claims of the specification.

Modelling conventions:
* JavaScript strings are `List Char` internally, wrapped into `String`
  at API boundaries.
* JS cell values delivered by the CSV parser are modelled by `JsValue`
  (string / number / boolean / null / undefined); `String(value || "")`
  is `jsToString`.
* `date-fns` `parse`/`format`/`isValid` and the native `new Date(s)` ISO
  parser are modelled faithfully for the twelve format strings the code
  probes (see `dateFnsParse` below).  The reference date `new Date()`
  that `date-fns` uses to resolve two-digit years enters the model as an
  explicit clock-year parameter `cy`.  The host timezone is taken to be
  UTC, so `new Date("yyyy-MM-dd")` (UTC midnight) and `format`
  (local fields) agree on the calendar date.
-/

namespace DataCompare

/-! ## JavaScript primitive values -/

/-- A primitive JS value as it can appear in a parsed CSV row. -/
inductive JsValue where
  | undef : JsValue
  | null : JsValue
  | str : String → JsValue
  | num : Int → JsValue
  | bool : Bool → JsValue
deriving DecidableEq, Repr

/-- `String(value || "")`: falsy values (`undefined`, `null`, `""`, `0`,
`false`) coerce to the empty string, everything else to its usual string
form. -/
def jsToString : JsValue → String
  | .undef => ""
  | .null => ""
  | .str s => s
  | .num n => if n = 0 then "" else toString n
  | .bool b => if b then "true" else ""

/-! ## Character classes (JS `\s`, `[a-zA-Z]`, `\d`, case mapping) -/

/-- The character set matched by JavaScript `\s` (and stripped by
`String.prototype.trim`). -/
def wsChars : List Char :=
  ['\t', '\n', '\x0b', '\x0c', '\r', ' ', '\u00A0', '\u1680',
   '\u2000', '\u2001', '\u2002', '\u2003', '\u2004', '\u2005',
   '\u2006', '\u2007', '\u2008', '\u2009', '\u200A', '\u2028',
   '\u2029', '\u202F', '\u205F', '\u3000', '\uFEFF']

/-- JS whitespace test. -/
def jsWs (c : Char) : Bool := wsChars.contains c

/-- ASCII digits, i.e. JS `\d`. -/
def digitChars : List Char := ['0', '1', '2', '3', '4', '5', '6', '7', '8', '9']

/-- Digit test used by all numeric regex fragments. -/
def isDig (c : Char) : Bool := digitChars.contains c

/-- Lowercase ASCII letters. -/
def lowerAlphaChars : List Char :=
  ['a', 'b', 'c', 'd', 'e', 'f', 'g', 'h', 'i', 'j', 'k', 'l', 'm',
   'n', 'o', 'p', 'q', 'r', 's', 't', 'u', 'v', 'w', 'x', 'y', 'z']

/-- Uppercase ASCII letters. -/
def upperAlphaChars : List Char :=
  ['A', 'B', 'C', 'D', 'E', 'F', 'G', 'H', 'I', 'J', 'K', 'L', 'M',
   'N', 'O', 'P', 'Q', 'R', 'S', 'T', 'U', 'V', 'W', 'X', 'Y', 'Z']

/-- The regex class `[a-zA-Z]`. -/
def isAlphaC (c : Char) : Bool :=
  lowerAlphaChars.contains c || upperAlphaChars.contains c

/-- Upper→lower pairs of the ASCII alphabet. -/
def caseTable : List (Char × Char) := upperAlphaChars.zip lowerAlphaChars

/-- JS `toLowerCase` restricted to the ASCII range (the only range the
code ever case-maps, since the mapping is guarded by an
`[a-zA-Z]`-shaped regex). -/
def lowerChar (c : Char) : Char := ((caseTable.lookup c).getD c)

/-- JS `toUpperCase` restricted to the ASCII range. -/
def upperChar (c : Char) : Char :=
  (((caseTable.map (fun p => (p.2, p.1))).lookup c).getD c)

/-! ## JS string trimming -/

/-- Strip leading JS whitespace. -/
def trimL (l : List Char) : List Char := l.dropWhile jsWs

/-- Strip trailing JS whitespace. -/
def trimR (l : List Char) : List Char := (trimL l.reverse).reverse

/-- `String.prototype.trim`. -/
def jsTrim (l : List Char) : List Char := trimR (trimL l)

/-- `s.replace(/\s+/g, "")`: remove every whitespace character. -/
def stripWs (l : List Char) : List Char := l.filter (fun c => !jsWs c)

/-- `s.replace(/^0+/, "")`: remove every leading `'0'`. -/
def stripZeros (l : List Char) : List Char := l.dropWhile (fun c => c == '0')

/-! ## Calendar arithmetic (shared by `date-fns` and the native `Date`) -/

/-- Gregorian leap year. -/
def isLeap (y : Nat) : Bool := y % 4 = 0 && (y % 100 ≠ 0 || y % 400 = 0)

/-- Days in a month (months are 1-based; only ever consulted for
`1 ≤ m ≤ 12`). -/
def daysInMonth (y m : Nat) : Nat :=
  if m = 2 then (if isLeap y then 29 else 28)
  else if m = 4 ∨ m = 6 ∨ m = 9 ∨ m = 11 then 30
  else 31

/-- `date-fns` `normalizeTwoDigitYear`: resolve a two-digit year against
the current (reference-date) year `cy`, picking the century that puts
the result within 50 years of `cy`.  (For `cy < 50` JS would produce a
negative year where this `Nat` version truncates at 0; both fall outside
the `1900 < year < 2100` sanity window the code enforces, so the
difference is unobservable.) -/
def n2dy (cy v : Nat) : Nat :=
  let rangeEnd := cy + 50
  let rangeEndCentury := rangeEnd / 100 * 100
  if v ≥ rangeEnd % 100 then v + rangeEndCentury - 100 else v + rangeEndCentury

/-- Value of a digit character. -/
def dv (c : Char) : Nat := c.toNat - 48

/-- Digit character of a value `< 10` (total for convenience). -/
def dc (n : Nat) : Char :=
  match n with
  | 0 => '0' | 1 => '1' | 2 => '2' | 3 => '3' | 4 => '4'
  | 5 => '5' | 6 => '6' | 7 => '7' | 8 => '8' | 9 => '9'
  | _ + 10 => '*'

/-- `format(d, "yyyy-MM-dd")` for a date with year `< 10000`: the year
zero-padded to four digits, month and day to two. -/
def cYMD (y m d : Nat) : List Char :=
  [dc (y / 1000 % 10), dc (y / 100 % 10), dc (y / 10 % 10), dc (y % 10), '-',
   dc (m / 10 % 10), dc (m % 10), '-', dc (d / 10 % 10), dc (d % 10)]

/-! ## `date-fns` `parse` for the twelve probed format strings

The parser follows `date-fns` v2+ semantics: each format token consumes
a regex-shaped prefix of the input, the whole input must be consumed,
and the collected fields are validated (`year > 0` for `yyyy`,
`1 ≤ month ≤ 12`, `1 ≤ day ≤ daysInMonth`, `hour ≤ 23`,
`minute, second ≤ 59`) with the year fixed before the day check. -/

/-- Format tokens appearing in the probed format strings. -/
inductive Tok where
  | lit : Char → Tok
  | d1 : Tok   -- `d`, pattern `(3[0-1]|[0-2]?\d)`
  | d2 : Tok   -- `dd`, pattern `\d{1,2}`
  | m1 : Tok   -- `M`, pattern `(1[0-2]|0?\d)`
  | m2 : Tok   -- `MM`, pattern `\d{1,2}`
  | mmm : Tok  -- `MMM`, case-insensitive English month abbreviation
  | yy : Tok   -- `yy`, pattern `\d{1,2}`, two-digit-year normalization
  | y4 : Tok   -- `yyyy`, pattern `\d{1,4}`
  | h2 : Tok   -- `HH`, pattern `\d{1,2}`, validated `≤ 23`
  | mi2 : Tok  -- `mm`, pattern `\d{1,2}`, validated `≤ 59`
  | s2 : Tok   -- `ss`, pattern `\d{1,2}`, validated `≤ 59`
deriving DecidableEq, Repr

/-- Fields collected while scanning a format. -/
structure PDate where
  year4 : Option Nat := none
  year2 : Option Nat := none
  month : Option Nat := none
  day : Option Nat := none
  hour : Option Nat := none
  minute : Option Nat := none
  second : Option Nat := none
deriving DecidableEq, Repr

/-- Greedy match of the regex `(3[0-1]|[0-2]?\d)` (the `d` token). -/
def matchD1 : List Char → Option (Nat × List Char)
  | [] => none
  | a :: rest =>
    if a = '3' then
      match rest with
      | b :: rest' => if b = '0' ∨ b = '1' then some (30 + dv b, rest') else some (3, rest)
      | [] => some (3, [])
    else if isDig a then
      if a = '0' ∨ a = '1' ∨ a = '2' then
        match rest with
        | b :: rest' => if isDig b then some (dv a * 10 + dv b, rest') else some (dv a, rest)
        | [] => some (dv a, [])
      else some (dv a, rest)
    else none

/-- Greedy match of the regex `(1[0-2]|0?\d)` (the `M` token). -/
def matchM1 : List Char → Option (Nat × List Char)
  | [] => none
  | a :: rest =>
    if a = '1' then
      match rest with
      | b :: rest' => if b = '0' ∨ b = '1' ∨ b = '2' then some (10 + dv b, rest') else some (1, rest)
      | [] => some (1, [])
    else if a = '0' then
      match rest with
      | b :: rest' => if isDig b then some (dv b, rest') else some (0, rest)
      | [] => some (0, [])
    else if isDig a then some (dv a, rest)
    else none

/-- Take at most `n` leading digits (greedy). -/
def takeDigs : Nat → List Char → (List Char × List Char)
  | 0, l => ([], l)
  | _ + 1, [] => ([], [])
  | n + 1, a :: rest =>
    if isDig a then
      let p := takeDigs n rest
      (a :: p.1, p.2)
    else ([], a :: rest)

/-- Numeric value of a digit list. -/
def digsVal (ds : List Char) : Nat := ds.foldl (fun acc c => acc * 10 + dv c) 0

/-- Greedy match of `\d{1,n}` (`parseNDigits`). -/
def matchND (n : Nat) (l : List Char) : Option (Nat × List Char) :=
  match takeDigs n l with
  | ([], _) => none
  | (ds, rest) => some (digsVal ds, rest)

/-- English abbreviated month names (lowercase), in `date-fns` order. -/
def monthAbbrevs : List (List Char × Nat) :=
  [(['j','a','n'], 1), (['f','e','b'], 2), (['m','a','r'], 3),
   (['a','p','r'], 4), (['m','a','y'], 5), (['j','u','n'], 6),
   (['j','u','l'], 7), (['a','u','g'], 8), (['s','e','p'], 9),
   (['o','c','t'], 10), (['n','o','v'], 11), (['d','e','c'], 12)]

/-- Case-insensitive match of an abbreviated month name prefix
(`date-fns` en-US `match.month` with width `abbreviated`, whose regex
carries the `i` flag). -/
def matchMMM : List Char → Option (Nat × List Char)
  | a :: b :: c :: rest =>
    match monthAbbrevs.lookup [lowerChar a, lowerChar b, lowerChar c] with
    | some m => some (m, rest)
    | none => none
  | _ => none

/-- Consume one token, recording its field. -/
def runTok (t : Tok) (p : PDate) (l : List Char) : Option (PDate × List Char) :=
  match t with
  | .lit c =>
    match l with
    | a :: rest => if a = c then some (p, rest) else none
    | [] => none
  | .d1 => (matchD1 l).map (fun r => ({ p with day := some r.1 }, r.2))
  | .d2 => (matchND 2 l).map (fun r => ({ p with day := some r.1 }, r.2))
  | .m1 => (matchM1 l).map (fun r => ({ p with month := some r.1 }, r.2))
  | .m2 => (matchND 2 l).map (fun r => ({ p with month := some r.1 }, r.2))
  | .mmm => (matchMMM l).map (fun r => ({ p with month := some r.1 }, r.2))
  | .yy => (matchND 2 l).map (fun r => ({ p with year2 := some r.1 }, r.2))
  | .y4 => (matchND 4 l).map (fun r => ({ p with year4 := some r.1 }, r.2))
  | .h2 => (matchND 2 l).map (fun r => ({ p with hour := some r.1 }, r.2))
  | .mi2 => (matchND 2 l).map (fun r => ({ p with minute := some r.1 }, r.2))
  | .s2 => (matchND 2 l).map (fun r => ({ p with second := some r.1 }, r.2))

/-- Scan a whole format. -/
def runToks : List Tok → PDate → List Char → Option (PDate × List Char)
  | [], p, l => some (p, l)
  | t :: ts, p, l =>
    match runTok t p l with
    | some (p', l') => runToks ts p' l'
    | none => none

/-- A resolved calendar date. -/
structure Ymd where
  y : Nat
  m : Nat
  d : Nat
deriving DecidableEq, Repr

/-- The resolved year field: `yyyy` requires `year > 0`; `yy` goes
through `normalizeTwoDigitYear`. -/
def yearField (cy : Nat) (p : PDate) : Option Nat :=
  match p.year4 with
  | some y => if y > 0 then some y else none
  | none => p.year2.map (n2dy cy)

/-- Field validation and assembly, `date-fns` style: the year is fixed
first, the month must be `1..12`, the day must fit the (leap-aware)
month length, time-of-day fields must be in range. -/
def validateBuild (cy : Nat) (p : PDate) : Option Ymd :=
  match yearField cy p, p.month, p.day with
  | some y, some m, some d =>
    if 1 ≤ m ∧ m ≤ 12 then
      if 1 ≤ d ∧ d ≤ daysInMonth y m then
        if (p.hour.getD 0) ≤ 23 ∧ (p.minute.getD 0) ≤ 59 ∧ (p.second.getD 0) ≤ 59 then
          some ⟨y, m, d⟩
        else none
      else none
    else none
  | _, _, _ => none

/-- `date-fns` `parse(s, fmt, referenceDate)` for one of the probed
formats: the format must consume the entire string and validate.
(`date-fns` v2+ rejects leftover input; strings reaching this parser
never carry trailing whitespace, so the leftover-whitespace nuance is
unobservable.) -/
def dateFnsParse (cy : Nat) (fmt : List Tok) (l : List Char) : Option Ymd :=
  match runToks fmt {} l with
  | some (p, []) => validateBuild cy p
  | _ => none

/-- The fixed format priority list of `normalizeValue`. -/
def dateFormats : List (List Tok) :=
  [[.d1, .lit '/', .m1, .lit '/', .y4],
   [.d2, .lit '/', .m2, .lit '/', .y4],
   [.d1, .lit '-', .m1, .lit '-', .y4],
   [.d2, .lit '-', .m2, .lit '-', .y4],
   [.y4, .lit '-', .m2, .lit '-', .d2],
   [.y4, .lit '-', .m2, .lit '-', .d2, .lit 'T', .h2, .lit ':', .mi2, .lit ':', .s2],
   [.m1, .lit '/', .d1, .lit '/', .y4],
   [.m2, .lit '/', .d2, .lit '/', .y4],
   [.d1, .lit '-', .mmm, .lit '-', .yy],
   [.d2, .lit '-', .mmm, .lit '-', .yy],
   [.d1, .lit '-', .mmm, .lit '-', .y4],
   [.d2, .lit '-', .mmm, .lit '-', .y4]]

/-- The probing loop: first format that parses with a year strictly
between 1900 and 2100 wins (a parse whose year is out of range does not
stop the loop). -/
def firstParse (cy : Nat) (l : List Char) : Option Ymd :=
  dateFormats.findSome? fun fmt =>
    match dateFnsParse cy fmt l with
    | some ymd => if 1900 < ymd.y ∧ ymd.y < 2100 then some ymd else none
    | none => none

/-! ## The native `new Date(s)` ISO branch and the `DD-MON-YY` re-casing -/

/-- Decompose a string of the exact shape `\d{4}-\d{2}-\d{2}` (the
regex guarding the native-`Date` branch) into year, month, day. -/
def isoDecomp : List Char → Option (Nat × Nat × Nat)
  | [a, b, c, d, s1, e, f, s2, g, h] =>
    if s1 = '-' ∧ s2 = '-' ∧ isDig a ∧ isDig b ∧ isDig c ∧ isDig d ∧
        isDig e ∧ isDig f ∧ isDig g ∧ isDig h then
      some (((dv a * 10 + dv b) * 10 + dv c) * 10 + dv d,
            dv e * 10 + dv f, dv g * 10 + dv h)
    else none
  | _ => none

/-- Validity of `new Date("yyyy-mm-dd")` (ECMAScript date-only ISO
parsing): month `1..12`, day within the month. -/
def jsIsoValid (y m d : Nat) : Bool :=
  1 ≤ m && m ≤ 12 && 1 ≤ d && d ≤ daysInMonth y m

/-- Decompose a string matching `^\d{1,2}-[a-zA-Z]{3}-\d{2,4}$` (the
`DD-MON-YY` fix-up regex) into (day digits, the three letters, year
digits).  The split is forced by the positions of the two dashes, so a
structural match per length followed by the character-class checks is
exactly the regex. -/
def ddmonDecomp (l : List Char) : Option (List Char × Char × Char × Char × List Char) :=
  match l with
  | [a, s1, p, q, r, s2, x, y] =>
    if isDig a ∧ s1 = '-' ∧ isAlphaC p ∧ isAlphaC q ∧ isAlphaC r ∧ s2 = '-' ∧
        isDig x ∧ isDig y then some ([a], p, q, r, [x, y]) else none
  | [a, s1, p, q, r, s2, x, y, z] =>
    if isDig a ∧ s1 = '-' ∧ isAlphaC p ∧ isAlphaC q ∧ isAlphaC r ∧ s2 = '-' ∧
        isDig x ∧ isDig y ∧ isDig z then some ([a], p, q, r, [x, y, z])
    else if isDig a ∧ isDig s1 ∧ p = '-' ∧ isAlphaC q ∧ isAlphaC r ∧ isAlphaC s2 ∧
        x = '-' ∧ isDig y ∧ isDig z then some ([a, s1], q, r, s2, [y, z])
    else none
  | [a, s1, p, q, r, s2, x, y, z, w] =>
    if isDig a ∧ s1 = '-' ∧ isAlphaC p ∧ isAlphaC q ∧ isAlphaC r ∧ s2 = '-' ∧
        isDig x ∧ isDig y ∧ isDig z ∧ isDig w then some ([a], p, q, r, [x, y, z, w])
    else if isDig a ∧ isDig s1 ∧ p = '-' ∧ isAlphaC q ∧ isAlphaC r ∧ isAlphaC s2 ∧
        x = '-' ∧ isDig y ∧ isDig z ∧ isDig w then some ([a, s1], q, r, s2, [y, z, w])
    else none
  | [a, s1, p, q, r, s2, x, y, z, w, v] =>
    if isDig a ∧ isDig s1 ∧ p = '-' ∧ isAlphaC q ∧ isAlphaC r ∧ isAlphaC s2 ∧
        x = '-' ∧ isDig y ∧ isDig z ∧ isDig w ∧ isDig v then
      some ([a, s1], q, r, s2, [y, z, w, v])
    else none
  | _ => none

/-- The `toLowerCase().replace(/\b[a-z]/g, upper)` fix-up, evaluated on
the `DD-MON-YY` shape (the only shape it is ever applied to): the three
letters are lowercased and the first is re-uppercased; digits and
dashes are untouched and contribute the word boundary before the first
letter. -/
def titleCased (ds1 : List Char) (p q r : Char) (ds2 : List Char) : List Char :=
  ds1 ++ '-' :: upperChar (lowerChar p) :: lowerChar q :: lowerChar r :: '-' :: ds2

/-- The probing tail of the date branch: render the first accepted
parse canonically, otherwise leave the string unchanged. -/
def probeStep (cy : Nat) (l : List Char) : List Char :=
  match firstParse cy l with
  | some ymd => cYMD ymd.y ymd.m ymd.d
  | none => l

/-- The whole date-normalization branch of `normalizeValue`:
`DD-MON-YY` re-casing, then the high-confidence native ISO branch,
then format probing; on total failure the (possibly re-cased) string
is returned untouched. -/
def dateStep (cy : Nat) (l : List Char) : List Char :=
  let l' :=
    match ddmonDecomp l with
    | some (ds1, p, q, r, ds2) => titleCased ds1 p q r ds2
    | none => l
  match isoDecomp l' with
  | some (y, m, d) => if jsIsoValid y m d then cYMD y m d else probeStep cy l'
  | none => probeStep cy l'

/-! ## Configuration and data model (`types.ts`) -/

/-- `KeyMapping` of `types.ts`. -/
structure KeyMapping where
  id : String
  fieldA : String
  fieldB : String
deriving DecidableEq, Repr

/-- `NormalizationRules` of `types.ts`. -/
structure NormalizationRules where
  trimWhitespace : Bool
  removeLeadingZerosA : Bool
  removeLeadingZerosFieldsA : List String
  normalizeDatesA : Bool
  dateFieldsA : List String
  removeLeadingZerosB : Bool
  removeLeadingZerosFieldsB : List String
  normalizeDatesB : Bool
  dateFieldsB : List String
deriving DecidableEq, Repr

/-- `ComparisonConfig` of `types.ts`. -/
structure ComparisonConfig where
  keyMappings : List KeyMapping
  rules : NormalizationRules
deriving DecidableEq, Repr

/-- A parsed CSV row: field name → raw cell value (absent fields read
as `undefined`, as JS property access does). -/
def Row := List (String × JsValue)
deriving DecidableEq, Repr
instance : Inhabited Row := ⟨([] : List (String × JsValue))⟩

/-- JS property access `row[header]`. -/
def jsGet (row : Row) (h : String) : JsValue := ((row.lookup h).getD .undef)

/-- `CsvFile` of `types.ts` (the `size` field plays no role in the
engine). -/
structure CsvFile where
  name : String
  data : List Row
  headers : List String
  size : Nat
deriving DecidableEq, Repr

/-- A fully normalized row, iterated in header order (the shape
`getNormalizedRow` builds and `JSON.stringify` serializes). -/
def NormRow := List (String × String)
deriving DecidableEq, Repr
instance : Inhabited NormRow := ⟨([] : List (String × String))⟩

/-- Field access on a normalized row, with JS `join` rendering a
missing (`undefined`) part as the empty string. -/
def nrGet (nr : NormRow) (f : String) : String := ((nr.lookup f).getD "")

/-! ## `normalizeValue` -/

/-- Does leading-zero removal apply to this field on this side?
(the side-symmetric `if` of `normalizeValue`, step 2). -/
def zerosApply (config : ComparisonConfig) (fieldName : String) (isSourceA : Bool) : Bool :=
  if isSourceA then
    config.rules.removeLeadingZerosA && config.rules.removeLeadingZerosFieldsA.contains fieldName
  else
    config.rules.removeLeadingZerosB && config.rules.removeLeadingZerosFieldsB.contains fieldName

/-- Does date normalization apply to this field on this side?
(`shouldNormalizeDate` of `normalizeValue`, step 3). -/
def datesApply (config : ComparisonConfig) (fieldName : String) (isSourceA : Bool) : Bool :=
  if isSourceA then
    config.rules.normalizeDatesA && config.rules.dateFieldsA.contains fieldName
  else
    config.rules.normalizeDatesB && config.rules.dateFieldsB.contains fieldName

/-- The normalization pipeline on the character list, with the three
rule switches made explicit: initial `trim()`, optional removal of all
whitespace, optional removal of leading zeros, optional date
canonicalization. -/
def normCore (cy : Nat) (trim za da : Bool) (l0 : List Char) : List Char :=
  let l1 := jsTrim l0
  let l2 := if trim then stripWs l1 else l1
  let l3 := if za then stripZeros l2 else l2
  if da then dateStep cy l3 else l3

/-- `normalizeValue(value, fieldName, config, isSourceA)` of
`csvService`; `cy` is the clock year of the `new Date()` reference date
used by `date-fns` `parse`. -/
def normalizeValue (cy : Nat) (value : JsValue) (fieldName : String)
    (config : ComparisonConfig) (isSourceA : Bool) : String :=
  String.mk (normCore cy config.rules.trimWhitespace
    (zerosApply config fieldName isSourceA)
    (datesApply config fieldName isSourceA)
    (jsToString value).data)

/-- `getNormalizedRow`: normalize every header field of a row; the
resulting association list in header order is also the
`JSON.stringify` dedup signature (serialization in insertion = header
order, injective on these rows). -/
def getNormalizedRow (cy : Nat) (row : Row) (headers : List String)
    (config : ComparisonConfig) (isSourceA : Bool) : NormRow :=
  headers.map (fun h => (h, normalizeValue cy (jsGet row h) h config isSourceA))

/-! ## `processSource` -/

/-- Composite comparison key: the normalized values of the mapped
fields, in `keyMappings` order, joined with `"|"`. -/
def buildKey (config : ComparisonConfig) (isSourceA : Bool) (nr : NormRow) : String :=
  String.intercalate "|"
    (config.keyMappings.map (fun m => nrGet nr (if isSourceA then m.fieldA else m.fieldB)))

/-- First-occurrence deduplication by signature: the fold over
`file.data` that `uniqueRowsMap` performs (`Map.set` keeps the first
row per signature; `Array.from(map.values())` preserves insertion
order). -/
def dedupRows (rows : List NormRow) : List NormRow :=
  rows.foldl (fun acc nr => if nr ∈ acc then acc else acc.concat nr) []

/-- The key index built from the unique rows: key → rows in
first-seen order, plus the key set in first-seen order. -/
structure KeyIndex where
  keyToRowsMap : List (String × List NormRow)
  allKeys : List String
deriving DecidableEq, Repr

/-- One step of the indexing loop of `processSource`. -/
def indexStep (config : ComparisonConfig) (isSourceA : Bool)
    (st : KeyIndex) (nr : NormRow) : KeyIndex :=
  let key := buildKey config isSourceA nr
  let m :=
    if (st.keyToRowsMap.lookup key).isSome then
      st.keyToRowsMap.map (fun p => if p.1 = key then (p.1, p.2.concat nr) else p)
    else st.keyToRowsMap.concat (key, [nr])
  let ks := if key ∈ st.allKeys then st.allKeys else st.allKeys.concat key
  ⟨m, ks⟩

/-- Build the key index over the unique rows. -/
def buildIndex (config : ComparisonConfig) (isSourceA : Bool)
    (rows : List NormRow) : KeyIndex :=
  rows.foldl (indexStep config isSourceA) ⟨[], []⟩

/-- `ProcessedSource` of `csvService`. -/
structure ProcessedSource where
  validUniqueRows : List NormRow
  duplicatesCount : Nat
  keyToRowsMap : List (String × List NormRow)
  allKeys : List String
deriving DecidableEq, Repr

/-- `processSource(file, config, isSourceA)`: normalize every row,
deduplicate exact (post-normalization) duplicates keeping first
occurrences, count the dropped rows, and index the survivors by
composite key.  The observer callback only logs and does not influence
the result, so it is omitted.  (The `try/catch` around per-row
normalization cannot fire: every modelled operation is total on the
primitive values CSV parsing delivers.) -/
def processSource (cy : Nat) (file : CsvFile) (config : ComparisonConfig)
    (isSourceA : Bool) : ProcessedSource :=
  let validUniqueRows :=
    dedupRows (file.data.map (fun row => getNormalizedRow cy row file.headers config isSourceA))
  let duplicatesCount := file.data.length - validUniqueRows.length
  let idx := buildIndex config isSourceA validUniqueRows
  ⟨validUniqueRows, duplicatesCount, idx.keyToRowsMap, idx.allKeys⟩

/-! ## `runComparison` -/

/-- `ComparisonStats` of `types.ts`. -/
structure ComparisonStats where
  totalA : Nat
  totalB : Nat
  validUniqueA : Nat
  validUniqueB : Nat
  duplicatesA : Nat
  duplicatesB : Nat
  missingInB : Nat
  missingInA : Nat
  matched : Nat
deriving DecidableEq, Repr

/-- A `(row, count)` duplicate-report entry, `DuplicateEntry` of
`types.ts`.  The declared `ComparisonResult` interface requires
`duplicatedRowsA/B : DuplicateEntry[]`, and `ResultsDashboard`
dereferences them — but the object literal `runComparison` actually
returns carries no such fields (see `ComparisonResult` below, which
mirrors the returned literal). -/
structure DuplicateEntry where
  row : NormRow
  count : Nat
deriving DecidableEq, Repr

/-- The comparison result as `runComparison` actually constructs it:
exactly the fields of the returned object literal.  (The
`ComparisonResult` interface of `types.ts` additionally declares
`duplicatedRowsA` and `duplicatedRowsB`, which the implementation never
produces.) -/
structure ComparisonResult where
  timestamp : String
  rowsMissingInB : List NormRow
  rowsMissingInA : List NormRow
  sourceAName : String
  sourceBName : String
  stats : ComparisonStats
deriving DecidableEq, Repr

/-- Keys of the first index absent from the second, in first-seen
order (the two `forEach` loops over `allKeys`). -/
def missingKeys (src other : List String) : List String :=
  src.filter (fun k => !(other.contains k))

/-- Resolve a key list back to rows through a key index
(`keyToRowsMap.get(key)` plus push of all rows). -/
def rowsForKeys (m : List (String × List NormRow)) (ks : List String) : List NormRow :=
  ks.flatMap (fun k => (m.lookup k).getD [])

/-- `runComparison(fileA, fileB, config)`; `cy` is the clock year (see
`normalizeValue`) and `nowIso` the `new Date().toISOString()` run
timestamp.  The log observer is advisory and omitted. -/
def runComparison (cy : Nat) (nowIso : String) (fileA fileB : CsvFile)
    (config : ComparisonConfig) : ComparisonResult :=
  let procA := processSource cy fileA config true
  let procB := processSource cy fileB config false
  let missingKeysInB := missingKeys procA.allKeys procB.allKeys
  let missingKeysInA := missingKeys procB.allKeys procA.allKeys
  let rowsMissingInB := rowsForKeys procA.keyToRowsMap missingKeysInB
  let rowsMissingInA := rowsForKeys procB.keyToRowsMap missingKeysInA
  let matchedKeysCount := procA.allKeys.length - missingKeysInB.length
  { timestamp := nowIso
    rowsMissingInB := rowsMissingInB
    rowsMissingInA := rowsMissingInA
    sourceAName := fileA.name
    sourceBName := fileB.name
    stats :=
      { totalA := fileA.data.length
        totalB := fileB.data.length
        validUniqueA := procA.validUniqueRows.length
        validUniqueB := procB.validUniqueRows.length
        duplicatesA := procA.duplicatesCount
        duplicatesB := procB.duplicatesCount
        missingInB := rowsMissingInB.length
        missingInA := rowsMissingInA.length
        matched := matchedKeysCount } }

/-! ## The `handleRun` guard of `App.tsx` -/

/-- Outcome of pressing "Run Comparison": either an error log entry and
no processing, or a completed comparison. -/
inductive RunOutcome where
  | errorLog : String → RunOutcome
  | ran : ComparisonResult → RunOutcome
deriving DecidableEq, Repr

/-- The `handleRun` precondition checks of `App.tsx`: both files
present and at least one key mapping, checked before `runComparison`
is invoked. -/
def handleRun (cy : Nat) (nowIso : String) (fileA fileB : Option CsvFile)
    (config : ComparisonConfig) : RunOutcome :=
  match fileA, fileB with
  | some a, some b =>
    if config.keyMappings.length = 0 then
      .errorLog "At least one key mapping is required."
    else .ran (runComparison cy nowIso a b config)
  | _, _ => .errorLog "Both source files must be loaded."

/-! ## Lemmas about deduplication -/

theorem dedupFold_length_le (l : List NormRow) :
    ∀ acc : List NormRow,
      (l.foldl (fun acc nr => if nr ∈ acc then acc else acc.concat nr) acc).length ≤
        acc.length + l.length := by
  induction l with
  | nil => intro acc; simp
  | cons x xs ih =>
    intro acc
    simp only [List.foldl_cons]
    refine le_trans (ih _) ?_
    by_cases hx : x ∈ acc
    · simp only [hx, if_true, List.length_cons]
      omega
    · have hlen : (acc.concat x).length = acc.length + 1 := by simp
      simp only [hx, if_false, hlen, List.length_cons]
      omega

theorem dedupRows_length_le (l : List NormRow) : (dedupRows l).length ≤ l.length := by
  have h := dedupFold_length_le l []
  unfold dedupRows
  simpa using h

theorem dedupFold_mem_mono (l : List NormRow) :
    ∀ acc : List NormRow, ∀ x ∈ acc,
      x ∈ l.foldl (fun acc nr => if nr ∈ acc then acc else acc.concat nr) acc := by
  induction l with
  | nil => intro acc x hx; simp only [List.foldl_nil]; exact hx
  | cons y ys ih =>
    intro acc x hx
    simp only [List.foldl_cons]
    refine ih _ x ?_
    by_cases hy : y ∈ acc
    · simpa [hy] using hx
    · simp only [hy, if_false, List.concat_eq_append, List.mem_append]
      exact Or.inl hx

theorem dedupFold_mem (l : List NormRow) :
    ∀ acc : List NormRow, ∀ x ∈ l,
      x ∈ l.foldl (fun acc nr => if nr ∈ acc then acc else acc.concat nr) acc := by
  induction l with
  | nil => intro acc x hx; cases hx
  | cons y ys ih =>
    intro acc x hx
    simp only [List.foldl_cons]
    rcases List.mem_cons.mp hx with rfl | hx'
    · refine dedupFold_mem_mono ys _ x ?_
      by_cases hy : x ∈ acc
      · simp [hy]
      · simp [hy]
    · exact ih _ x hx'

theorem mem_dedupRows {x : NormRow} {l : List NormRow} (hx : x ∈ l) :
    x ∈ dedupRows l := by
  unfold dedupRows
  exact dedupFold_mem l [] x hx

/-! ## Lemmas about the key index -/

/-- The structural invariant of the indexing loop: the key list is
duplicate-free, lists exactly the map's keys in order, and every row
filed under a key has that key. -/
def IndexInv (config : ComparisonConfig) (isSourceA : Bool) (st : KeyIndex) : Prop :=
  st.allKeys.Nodup ∧ st.allKeys = st.keyToRowsMap.map Prod.fst ∧
    ∀ p ∈ st.keyToRowsMap, ∀ r ∈ p.2, buildKey config isSourceA r = p.1

theorem lookup_isSome_iff_mem_fst {l : List (String × List NormRow)} {k : String} :
    (l.lookup k).isSome ↔ k ∈ l.map Prod.fst := by
  rw [List.lookup_isSome_iff]
  simp only [List.mem_map, beq_iff_eq]
  constructor
  · rintro ⟨p, hp, rfl⟩
    exact ⟨p, hp, rfl⟩
  · rintro ⟨p, hp, rfl⟩
    exact ⟨p, hp, rfl⟩

theorem mem_of_lookup_some {l : List (String × List NormRow)} {k : String}
    {v : List NormRow} (h : l.lookup k = some v) : (k, v) ∈ l := by
  obtain ⟨l₁, l₂, rfl, -⟩ := List.lookup_eq_some_iff.mp h
  simp

theorem indexStep_inv (config : ComparisonConfig) (isSourceA : Bool)
    (st : KeyIndex) (nr : NormRow) (h : IndexInv config isSourceA st) :
    IndexInv config isSourceA (indexStep config isSourceA st nr) := by
  obtain ⟨hnd, hkeys, hrows⟩ := h
  set key := buildKey config isSourceA nr with hkey
  have hmem_iff : (st.keyToRowsMap.lookup key).isSome ↔ key ∈ st.allKeys := by
    rw [hkeys]
    exact lookup_isSome_iff_mem_fst
  by_cases hs : (st.keyToRowsMap.lookup key).isSome
  · have hk : key ∈ st.allKeys := hmem_iff.mp hs
    have hstep : indexStep config isSourceA st nr =
        ⟨st.keyToRowsMap.map (fun p => if p.1 = key then (p.1, p.2.concat nr) else p),
          st.allKeys⟩ := by
      simp [indexStep, hs, hk, ← hkey]
    rw [hstep]
    refine ⟨hnd, ?_, ?_⟩
    · rw [hkeys, List.map_map]
      congr 1
      funext p
      by_cases hp : p.1 = key <;> simp [hp]
    · intro p hp r hr
      obtain ⟨q, hq, hqe⟩ := List.mem_map.mp hp
      by_cases hqk : q.1 = key
      · rw [if_pos hqk] at hqe
        subst hqe
        simp only [List.concat_eq_append, List.mem_append, List.mem_singleton] at hr
        rcases hr with hr | hr2
        · exact hrows q hq r hr
        · subst hr2
          show key = q.1
          rw [hqk]
      · rw [if_neg hqk] at hqe
        subst hqe
        exact hrows q hq r hr
  · have hk : key ∉ st.allKeys := fun hk => hs (hmem_iff.mpr hk)
    have hstep : indexStep config isSourceA st nr =
        ⟨st.keyToRowsMap.concat (key, [nr]), st.allKeys.concat key⟩ := by
      simp [indexStep, hs, hk, ← hkey]
    rw [hstep]
    refine ⟨?_, ?_, ?_⟩
    · show (st.allKeys.concat key).Nodup
      rw [List.concat_eq_append]
      exact List.Nodup.append hnd (List.nodup_singleton key)
        (by simpa [List.disjoint_singleton] using hk)
    · show st.allKeys.concat key = (st.keyToRowsMap.concat (key, [nr])).map Prod.fst
      rw [List.concat_eq_append, List.concat_eq_append, List.map_append, hkeys]
      rfl
    · intro p hp r hr
      rw [List.concat_eq_append, List.mem_append, List.mem_singleton] at hp
      rcases hp with hp | hp2
      · exact hrows p hp r hr
      · subst hp2
        simp only [List.mem_singleton] at hr
        subst hr
        rfl

theorem buildIndex_inv (config : ComparisonConfig) (isSourceA : Bool)
    (rows : List NormRow) :
    IndexInv config isSourceA (buildIndex config isSourceA rows) := by
  unfold buildIndex
  suffices h : ∀ st, IndexInv config isSourceA st →
      IndexInv config isSourceA (rows.foldl (indexStep config isSourceA) st) by
    exact h ⟨[], []⟩ ⟨List.nodup_nil, rfl, by simp⟩
  induction rows with
  | nil => intro st hst; simpa using hst
  | cons r rs ih =>
    intro st hst
    simp only [List.foldl_cons]
    exact ih _ (indexStep_inv config isSourceA st r hst)

theorem processSource_allKeys_nodup (cy : Nat) (file : CsvFile)
    (config : ComparisonConfig) (isSourceA : Bool) :
    (processSource cy file config isSourceA).allKeys.Nodup :=
  (buildIndex_inv config isSourceA _).1

theorem processSource_rows_key (cy : Nat) (file : CsvFile)
    (config : ComparisonConfig) (isSourceA : Bool) :
    ∀ p ∈ (processSource cy file config isSourceA).keyToRowsMap, ∀ r ∈ p.2,
      buildKey config isSourceA r = p.1 :=
  (buildIndex_inv config isSourceA _).2.2

/-! ## Concrete fixtures used by counterexamples and witnesses -/

/-- Ruleset with only whitespace trimming on (dates and zeros off). -/
def rulesPlain : NormalizationRules :=
  ⟨true, false, [], false, [], false, [], false, []⟩

/-- Ruleset of the idempotence counterexample: `trimWhitespace` off,
leading-zero removal on for field `"F"` of Source A. -/
def rulesZeroNoTrim : NormalizationRules :=
  ⟨false, true, ["F"], false, [], false, [], false, []⟩

/-- Ruleset of the clock counterexample: date normalization on for
field `"D"` of Source A only. -/
def rulesDateA : NormalizationRules :=
  ⟨true, false, [], true, ["D"], false, [], false, []⟩

/-- Ruleset with date normalization on for field `"DT"` on both sides
(used by the Scenario-3 witness). -/
def rulesDateBoth : NormalizationRules :=
  ⟨true, false, [], true, ["DT"], false, [], true, ["DT"]⟩

/-- Single key mapping `V ↔ V`. -/
def cfgV : ComparisonConfig := ⟨[⟨"k", "V", "V"⟩], rulesPlain⟩

/-- Single key mapping `D ↔ D` with Source-A date normalization. -/
def cfgD : ComparisonConfig := ⟨[⟨"k", "D", "D"⟩], rulesDateA⟩

/-- Two key mappings `F1 ↔ F1`, `F2 ↔ F2`. -/
def cfgPair : ComparisonConfig := ⟨[⟨"k1", "F1", "F1"⟩, ⟨"k2", "F2", "F2"⟩], rulesPlain⟩

/-- Empty key-mapping list. -/
def cfgEmptyKeys : ComparisonConfig := ⟨[], rulesPlain⟩

/-- A one-field row with value `"a"`. -/
def rowA : Row := [("V", .str "a")]

/-- A one-field row with value `"b"`. -/
def rowB : Row := [("V", .str "b")]

/-- Dataset in which `rowA` occurs twice and `rowB` once. -/
def fileAA : CsvFile := ⟨"a.csv", [rowA, rowA, rowB], ["V"], 0⟩

/-- Dataset in which `rowA` occurs once and `rowB` twice. -/
def fileBB : CsvFile := ⟨"a.csv", [rowA, rowB, rowB], ["V"], 0⟩

/-- One-row second dataset. -/
def fileOne : CsvFile := ⟨"b.csv", [rowA], ["V"], 0⟩

/-- Dataset with a `DD-MON-YY` date in the key field. -/
def fileDateA : CsvFile := ⟨"a.csv", [[("D", .str "1-Jan-76")]], ["D"], 0⟩

/-- Dataset with the corresponding ISO date in the key field. -/
def fileDateB : CsvFile := ⟨"b.csv", [[("D", .str "1976-01-01")]], ["D"], 0⟩

/-- Row whose first key field contains the `"|"` separator. -/
def rowPipe1 : Row := [("F1", .str "a|b"), ("F2", .str "c")]

/-- Row whose second key field contains the `"|"` separator. -/
def rowPipe2 : Row := [("F1", .str "a"), ("F2", .str "b|c")]

/-- Dataset holding the two colliding rows. -/
def filePipe : CsvFile := ⟨"a.csv", [rowPipe1, rowPipe2], ["F1", "F2"], 0⟩

/-! ## Claims -/

/-- **C1** (code bug).  The claim states that the `ComparisonResult`
returned by `runComparison` carries `duplicatedRowsA`/`duplicatedRowsB`
lists from which a `(row, occurrenceCount)` entry is retrievable for
every within-source duplicate signature.  The returned object literal
carries no such fields (its shape is the `ComparisonResult` structure
above), and `processSource` keeps only the aggregate
`duplicatesCount = data.length - uniqueRows.length`: two inputs with
different per-signature occurrence counts (here `[a, a, b]` versus
`[a, b, b]`) produce *equal* results, so no duplicate report with
counts can be derived from what `runComparison` returns. -/
theorem c1_duplicate_report_lost :
    runComparison 2026 "t" fileAA fileOne cfgV =
      runComparison 2026 "t" fileBB fileOne cfgV ∧
    fileAA.data.count rowA = 2 ∧ fileBB.data.count rowA = 1 := by
  refine ⟨by decide, by decide, by decide⟩

/-- **C2** (counterexample).  Called directly with an empty
`keyMappings` list, `runComparison` does *not* fail before processing:
it normalizes and deduplicates both datasets (`validUniqueA = 2`),
indexes every row under the empty composite key, and returns a complete
`ComparisonResult` (here even reporting the two sources as matched on
the empty key). -/
theorem c2_no_failfast_counterexample :
    (runComparison 2026 "t" fileAA fileOne cfgEmptyKeys).stats.validUniqueA = 2 ∧
    (runComparison 2026 "t" fileAA fileOne cfgEmptyKeys).stats.matched = 1 ∧
    (runComparison 2026 "t" fileAA fileOne cfgEmptyKeys).stats.duplicatesA = 1 := by
  refine ⟨by decide, by decide, by decide⟩

/-- **C2** (amended).  The empty-key-mapping guard lives in the UI
handler `handleRun`, not in `runComparison`: with both datasets present
and `keyMappings` empty, `handleRun` emits the error log
`"At least one key mapping is required."` and never invokes
`runComparison`, so no row is processed and no result is produced. -/
theorem c2_handleRun_rejects_empty_keyMappings (cy : Nat) (nowIso : String)
    (a b : CsvFile) (config : ComparisonConfig) (h : config.keyMappings = []) :
    handleRun cy nowIso (some a) (some b) config =
      .errorLog "At least one key mapping is required." := by
  simp [handleRun, h]

/-- Witness for `c2_handleRun_rejects_empty_keyMappings`. -/
theorem c2_handleRun_rejects_empty_keyMappings_witness :
    handleRun 2026 "t" (some fileAA) (some fileOne) cfgEmptyKeys =
      .errorLog "At least one key mapping is required." :=
  c2_handleRun_rejects_empty_keyMappings 2026 "t" fileAA fileOne cfgEmptyKeys rfl

/-- **C6**.  Dedup conservation: for every pair of datasets and every
config, the reported stats satisfy `totalA = validUniqueA + duplicatesA`
and `totalB = validUniqueB + duplicatesB`.  (In the model, as in the
code on the primitive values CSV parsing yields, normalization never
throws, so no row is skipped and the conservation law is exact.) -/
theorem c6_dedup_conservation (cy : Nat) (nowIso : String)
    (fileA fileB : CsvFile) (config : ComparisonConfig) :
    (runComparison cy nowIso fileA fileB config).stats.totalA =
        (runComparison cy nowIso fileA fileB config).stats.validUniqueA +
          (runComparison cy nowIso fileA fileB config).stats.duplicatesA ∧
    (runComparison cy nowIso fileA fileB config).stats.totalB =
        (runComparison cy nowIso fileA fileB config).stats.validUniqueB +
          (runComparison cy nowIso fileA fileB config).stats.duplicatesB := by
  have haT : (runComparison cy nowIso fileA fileB config).stats.totalA =
      fileA.data.length := rfl
  have haU : (runComparison cy nowIso fileA fileB config).stats.validUniqueA =
      (dedupRows (fileA.data.map
        (fun row => getNormalizedRow cy row fileA.headers config true))).length := rfl
  have haD : (runComparison cy nowIso fileA fileB config).stats.duplicatesA =
      fileA.data.length - (dedupRows (fileA.data.map
        (fun row => getNormalizedRow cy row fileA.headers config true))).length := rfl
  have hbT : (runComparison cy nowIso fileA fileB config).stats.totalB =
      fileB.data.length := rfl
  have hbU : (runComparison cy nowIso fileA fileB config).stats.validUniqueB =
      (dedupRows (fileB.data.map
        (fun row => getNormalizedRow cy row fileB.headers config false))).length := rfl
  have hbD : (runComparison cy nowIso fileA fileB config).stats.duplicatesB =
      fileB.data.length - (dedupRows (fileB.data.map
        (fun row => getNormalizedRow cy row fileB.headers config false))).length := rfl
  have hleA := dedupRows_length_le
    (fileA.data.map (fun row => getNormalizedRow cy row fileA.headers config true))
  have hleB := dedupRows_length_le
    (fileB.data.map (fun row => getNormalizedRow cy row fileB.headers config false))
  rw [List.length_map] at hleA hleB
  constructor
  · rw [haT, haU, haD]
    omega
  · rw [hbT, hbU, hbD]
    omega

/-- **C7** (counterexample).  Two runs on identical `(datasetA,
datasetB, config)` need not agree outside `timestamp`: `date-fns`
resolves two-digit years against the *current* clock year (`new
Date()` reference date), so a run in 2026 normalizes the key
`"1-Jan-76"` to `1976-01-01` (matching dataset B) while a run in 2027
normalizes it to `2076-01-01` (matching nothing) — the stats differ. -/
theorem c7_clock_dependence_counterexample :
    (runComparison 2026 "t1" fileDateA fileDateB cfgD).stats ≠
      (runComparison 2027 "t2" fileDateA fileDateB cfgD).stats := by
  decide

/-- **C7** (amended).  Determinism holds relative to the clock year:
for a fixed clock year `cy`, two runs (with arbitrary, possibly
different timestamps) agree on every field of the `ComparisonResult`
except `timestamp`. -/
theorem c7_deterministic_given_clock_year (cy : Nat) (t1 t2 : String)
    (fileA fileB : CsvFile) (config : ComparisonConfig) :
    (runComparison cy t1 fileA fileB config).stats =
        (runComparison cy t2 fileA fileB config).stats ∧
    (runComparison cy t1 fileA fileB config).rowsMissingInB =
        (runComparison cy t2 fileA fileB config).rowsMissingInB ∧
    (runComparison cy t1 fileA fileB config).rowsMissingInA =
        (runComparison cy t2 fileA fileB config).rowsMissingInA ∧
    (runComparison cy t1 fileA fileB config).sourceAName =
        (runComparison cy t2 fileA fileB config).sourceAName ∧
    (runComparison cy t1 fileA fileB config).sourceBName =
        (runComparison cy t2 fileA fileB config).sourceBName :=
  ⟨rfl, rfl, rfl, rfl, rfl⟩

/-- **C9**.  The delimiter-joined composite key is not injective: the
two rows `{F1: "a|b", F2: "c"}` and `{F1: "a", F2: "b|c"}` normalize to
distinct rows whose key-field tuples differ, yet both join to the
composite key `"a|b|c"`, so `processSource` files both under a single
key and the comparison treats them as one logical record. -/
theorem c9_composite_key_collision :
    buildKey cfgPair true
        (getNormalizedRow 2026 rowPipe1 filePipe.headers cfgPair true) =
      buildKey cfgPair true
        (getNormalizedRow 2026 rowPipe2 filePipe.headers cfgPair true) ∧
    getNormalizedRow 2026 rowPipe1 filePipe.headers cfgPair true ≠
      getNormalizedRow 2026 rowPipe2 filePipe.headers cfgPair true ∧
    (processSource 2026 filePipe cfgPair true).validUniqueRows.length = 2 ∧
    (processSource 2026 filePipe cfgPair true).allKeys = ["a|b|c"] := by
  refine ⟨by decide, by decide, by decide, by decide⟩

/-- Key-mapping-free config with date normalization on `"DT"` for both
sides (the C8 witness instance). -/
def cfgDT : ComparisonConfig := ⟨[], rulesDateBoth⟩

/-- **C8**.  Scenario 3: with date normalization enabled for the field
(on either side, under any other rule settings), `"3-DEC-25"`
normalizes to `"2025-12-03"`: it matches the day-month-abbrev-year
pattern, is re-cased to `"3-Dec-25"`, fails the strict-ISO branch, and
is parsed by `d-MMM-yy` — the first of the probed formats to succeed —
whose two-digit year resolves to 2025 (within the `1900 < y < 2100`
window), then is rendered as `yyyy-MM-dd`.  Stated at clock year 2026. -/
theorem c8_ddmonyy_scenario (config : ComparisonConfig) (isSourceA : Bool)
    (h : datesApply config "DT" isSourceA = true) :
    normalizeValue 2026 (.str "3-DEC-25") "DT" config isSourceA = "2025-12-03" := by
  unfold normalizeValue
  rw [h]
  have hcore : ∀ trim za : Bool,
      normCore 2026 trim za true (jsToString (.str "3-DEC-25")).data =
        "2025-12-03".data := by decide
  rw [hcore]

/-- Witness for `c8_ddmonyy_scenario`. -/
theorem c8_ddmonyy_scenario_witness :
    datesApply cfgDT "DT" true = true ∧
    normalizeValue 2026 (.str "3-DEC-25") "DT" cfgDT true = "2025-12-03" :=
  ⟨by decide, c8_ddmonyy_scenario cfgDT true (by decide)⟩

/-- The two halves of a `filter` partition a list's length. -/
theorem length_filter_bool_complement (p : String → Bool) (l : List String) :
    (l.filter p).length + (l.filter (fun x => !p x)).length = l.length := by
  induction l with
  | nil => rfl
  | cons x xs ih =>
    by_cases hx : p x
    · simp [List.filter_cons, hx]
      omega
    · simp [List.filter_cons, hx]
      omega

/-- Counting the intersection from either side gives the same number,
for duplicate-free lists. -/
theorem inter_filter_length_comm {A B : List String}
    (hA : A.Nodup) (hB : B.Nodup) :
    (A.filter (fun k => B.contains k)).length =
      (B.filter (fun k => A.contains k)).length := by
  have h1 : (A.filter (fun k => B.contains k)).Nodup := hA.filter _
  have h2 : (B.filter (fun k => A.contains k)).Nodup := hB.filter _
  rw [← List.toFinset_card_of_nodup h1, ← List.toFinset_card_of_nodup h2,
    List.toFinset_filter, List.toFinset_filter]
  have e1 : A.toFinset.filter (fun k => B.contains k = true) =
      A.toFinset ∩ B.toFinset := by
    rw [← Finset.filter_mem_eq_inter]
    apply Finset.filter_congr
    intro x _
    simp
  have e2 : B.toFinset.filter (fun k => A.contains k = true) =
      B.toFinset ∩ A.toFinset := by
    rw [← Finset.filter_mem_eq_inter]
    apply Finset.filter_congr
    intro x _
    simp
  simp only [decide_eq_true_eq] at e1 e2 ⊢
  rw [e1, e2, Finset.inter_comm]

/-- **C4**.  Key partition law: `matched` plus the number of keys of A
absent from B is the size of A's key set, and — with the *same*
`matched` count — symmetrically for B, for every config with non-empty
key mappings.  (`runComparison` computes `matched` only from the A
side, as `|keysA| - |keysOnlyInA|`; the B-side identity holds because
both sides count the same intersection.) -/
theorem c4_key_partition (cy : Nat) (nowIso : String) (fileA fileB : CsvFile)
    (config : ComparisonConfig) (_hkm : config.keyMappings ≠ []) :
    (runComparison cy nowIso fileA fileB config).stats.matched +
        (missingKeys (processSource cy fileA config true).allKeys
          (processSource cy fileB config false).allKeys).length =
      (processSource cy fileA config true).allKeys.length ∧
    (runComparison cy nowIso fileA fileB config).stats.matched +
        (missingKeys (processSource cy fileB config false).allKeys
          (processSource cy fileA config true).allKeys).length =
      (processSource cy fileB config false).allKeys.length := by
  clear _hkm
  set kA := (processSource cy fileA config true).allKeys with hkA
  set kB := (processSource cy fileB config false).allKeys with hkB
  have hmatched : (runComparison cy nowIso fileA fileB config).stats.matched =
      kA.length - (missingKeys kA kB).length := rfl
  have hle : (missingKeys kA kB).length ≤ kA.length :=
    List.length_filter_le _ _
  constructor
  · rw [hmatched]
    omega
  · rw [hmatched]
    have hcompA := length_filter_bool_complement (fun k => kB.contains k) kA
    have hcompB := length_filter_bool_complement (fun k => kA.contains k) kB
    have hsym := inter_filter_length_comm
      (processSource_allKeys_nodup cy fileA config true)
      (processSource_allKeys_nodup cy fileB config false)
    rw [← hkA, ← hkB] at hsym
    have hmissA : (missingKeys kA kB).length =
        (kA.filter (fun k => !kB.contains k)).length := rfl
    have hmissB : (missingKeys kB kA).length =
        (kB.filter (fun k => !kA.contains k)).length := rfl
    rw [hmissA, hmissB]
    omega

/-- Witness for `c4_key_partition`. -/
theorem c4_key_partition_witness :
    (runComparison 2026 "t" fileAA fileOne cfgV).stats.matched +
        (missingKeys (processSource 2026 fileAA cfgV true).allKeys
          (processSource 2026 fileOne cfgV false).allKeys).length =
      (processSource 2026 fileAA cfgV true).allKeys.length ∧
    (runComparison 2026 "t" fileAA fileOne cfgV).stats.matched +
        (missingKeys (processSource 2026 fileOne cfgV false).allKeys
          (processSource 2026 fileAA cfgV true).allKeys).length =
      (processSource 2026 fileOne cfgV false).allKeys.length :=
  c4_key_partition 2026 "t" fileAA fileOne cfgV (by decide)

/-- **C5**.  Missing-row superset property: every row reported in
`rowsMissingInB` has an (A-side) composite key absent from B's key set
— so no row with a key present in both key sets is reported — and,
conversely, for every key of A missing from B, *all* rows indexed under
that key are reported in `rowsMissingInB`; symmetrically for the other
direction. -/
theorem c5_missing_row_superset (cy : Nat) (nowIso : String)
    (fileA fileB : CsvFile) (config : ComparisonConfig) :
    (∀ r ∈ (runComparison cy nowIso fileA fileB config).rowsMissingInB,
        buildKey config true r ∉ (processSource cy fileB config false).allKeys) ∧
    (∀ r ∈ (runComparison cy nowIso fileA fileB config).rowsMissingInA,
        buildKey config false r ∉ (processSource cy fileA config true).allKeys) ∧
    (∀ k ∈ missingKeys (processSource cy fileA config true).allKeys
        (processSource cy fileB config false).allKeys,
      ∀ r ∈ ((processSource cy fileA config true).keyToRowsMap.lookup k).getD [],
        r ∈ (runComparison cy nowIso fileA fileB config).rowsMissingInB) ∧
    (∀ k ∈ missingKeys (processSource cy fileB config false).allKeys
        (processSource cy fileA config true).allKeys,
      ∀ r ∈ ((processSource cy fileB config false).keyToRowsMap.lookup k).getD [],
        r ∈ (runComparison cy nowIso fileA fileB config).rowsMissingInA) := by
  have habsent : ∀ (pa pb : ProcessedSource) (sideA : Bool),
      (∀ p ∈ pa.keyToRowsMap, ∀ r ∈ p.2, buildKey config sideA r = p.1) →
      ∀ r ∈ rowsForKeys pa.keyToRowsMap (missingKeys pa.allKeys pb.allKeys),
        buildKey config sideA r ∉ pb.allKeys := by
    intro pa pb sideA hinv r hr
    obtain ⟨k, hk, hrk⟩ := List.mem_flatMap.mp hr
    obtain ⟨-, hknot⟩ := List.mem_filter.mp hk
    cases hlook : pa.keyToRowsMap.lookup k with
    | none => rw [hlook] at hrk; cases hrk
    | some rs =>
      rw [hlook] at hrk
      have hmem := mem_of_lookup_some hlook
      have hkey := hinv (k, rs) hmem r hrk
      intro hcontra
      rw [hkey] at hcontra
      simp only [Bool.not_eq_true'] at hknot
      have hc : pb.allKeys.contains k = true :=
        List.contains_iff_exists_mem_beq.mpr ⟨k, hcontra, by simp⟩
      rw [hknot] at hc
      cases hc
  have hsuper : ∀ (pa pb : ProcessedSource),
      ∀ k ∈ missingKeys pa.allKeys pb.allKeys,
      ∀ r ∈ (pa.keyToRowsMap.lookup k).getD [],
        r ∈ rowsForKeys pa.keyToRowsMap (missingKeys pa.allKeys pb.allKeys) := by
    intro pa pb k hk r hr
    exact List.mem_flatMap.mpr ⟨k, hk, hr⟩
  refine ⟨?_, ?_, ?_, ?_⟩
  · exact habsent (processSource cy fileA config true)
      (processSource cy fileB config false) true
      (processSource_rows_key cy fileA config true)
  · exact habsent (processSource cy fileB config false)
      (processSource cy fileA config true) false
      (processSource_rows_key cy fileB config false)
  · exact hsuper (processSource cy fileA config true)
      (processSource cy fileB config false)
  · exact hsuper (processSource cy fileB config false)
      (processSource cy fileA config true)

/-- Witness for `c5_missing_row_superset`: the concrete missing row
`{V: "b"}` of `fileAA` indeed carries a key absent from `fileOne`. -/
theorem c5_missing_row_superset_witness :
    buildKey cfgV true (getNormalizedRow 2026 rowB fileAA.headers cfgV true) ∉
      (processSource 2026 fileOne cfgV false).allKeys :=
  (c5_missing_row_superset 2026 "t" fileAA fileOne cfgV).1
    (getNormalizedRow 2026 rowB fileAA.headers cfgV true) (by decide)

/-- **C10**.  No row is ever silently dropped: normalization is total
on the primitive values CSV parsing delivers (so the `try/catch` skip
branch of `processSource` is unreachable), and consequently every input
row's normalized form is present among the retained unique rows. -/
theorem c10_no_row_dropped (cy : Nat) (file : CsvFile)
    (config : ComparisonConfig) (isSourceA : Bool) (row : Row)
    (h : row ∈ file.data) :
    getNormalizedRow cy row file.headers config isSourceA ∈
      (processSource cy file config isSourceA).validUniqueRows := by
  show _ ∈ dedupRows (file.data.map
    (fun row => getNormalizedRow cy row file.headers config isSourceA))
  exact mem_dedupRows (List.mem_map_of_mem _ h)

/-- Witness for `c10_no_row_dropped`. -/
theorem c10_no_row_dropped_witness :
    getNormalizedRow 2026 rowA fileAA.headers cfgV true ∈
      (processSource 2026 fileAA cfgV true).validUniqueRows :=
  c10_no_row_dropped 2026 fileAA cfgV true rowA (by decide)

/-! ## Towards C3: head/edge properties of the trimming steps -/

/-- The head of a list, if present, fails `p`. -/
def HeadNot (p : Char → Bool) (l : List Char) : Prop :=
  ∀ c, l.head? = some c → p c = false

/-- The last element of a list, if present, fails `p`. -/
def LastNot (p : Char → Bool) (l : List Char) : Prop :=
  ∀ c, l.getLast? = some c → p c = false

/-- No element of the list satisfies `p`. -/
def AllNot (p : Char → Bool) (l : List Char) : Prop :=
  ∀ c ∈ l, p c = false

theorem headNot_dropWhile (p : Char → Bool) (l : List Char) :
    HeadNot p (l.dropWhile p) := by
  induction l with
  | nil => intro c hc; cases hc
  | cons a l ih =>
    intro c hc
    rw [List.dropWhile_cons] at hc
    by_cases ha : p a
    · rw [if_pos ha] at hc
      exact ih c hc
    · rw [if_neg ha] at hc
      cases hc
      simpa using ha

theorem dropWhile_eq_self_of_headNot {p : Char → Bool} {l : List Char}
    (h : HeadNot p l) : l.dropWhile p = l := by
  cases l with
  | nil => rfl
  | cons a l =>
    have ha := h a rfl
    simp [List.dropWhile_cons, ha]

theorem getLast?_dropWhile_or (p : Char → Bool) (l : List Char) :
    l.dropWhile p = [] ∨ (l.dropWhile p).getLast? = l.getLast? := by
  induction l with
  | nil => exact Or.inl rfl
  | cons a l ih =>
    by_cases ha : p a
    · rcases ih with hnil | hlast
      · left
        simp [List.dropWhile_cons, ha, hnil]
      · by_cases hne : l.dropWhile p = []
        · left
          simp [List.dropWhile_cons, ha, hne]
        · right
          rw [List.dropWhile_cons, if_pos ha, hlast, List.getLast?_cons]
          have hlne : l ≠ [] := by
            intro h0
            rw [h0] at hne
            exact hne rfl
          obtain ⟨x, hx⟩ :=
            Option.isSome_iff_exists.mp (List.getLast?_isSome.mpr hlne)
          rw [hx]
          rfl
    · right
      simp [List.dropWhile_cons, ha]

theorem allNot_mem_of_sub {p : Char → Bool} {l l' : List Char}
    (hsub : ∀ c ∈ l', c ∈ l) (h : AllNot p l) : AllNot p l' :=
  fun c hc => h c (hsub c hc)

theorem allNot_headNot {p : Char → Bool} {l : List Char} (h : AllNot p l) :
    HeadNot p l := by
  intro c hc
  cases l with
  | nil => cases hc
  | cons a l =>
    cases hc
    exact h _ (List.mem_cons_self _ _)

theorem allNot_lastNot {p : Char → Bool} {l : List Char} (h : AllNot p l) :
    LastNot p l := by
  intro c hc
  rw [← List.head?_reverse] at hc
  cases hr : l.reverse with
  | nil => rw [hr] at hc; cases hc
  | cons a t =>
    rw [hr] at hc
    cases hc
    have : c ∈ l.reverse := by rw [hr]; exact List.mem_cons_self c t
    exact h _ (List.mem_reverse.mp this)

theorem trimL_headNot (l : List Char) : HeadNot jsWs (trimL l) :=
  headNot_dropWhile jsWs l

theorem trimL_eq_self {l : List Char} (h : HeadNot jsWs l) : trimL l = l :=
  dropWhile_eq_self_of_headNot h

theorem trimR_lastNot (l : List Char) : LastNot jsWs (trimR l) := by
  intro c hc
  unfold trimR at hc
  rw [List.getLast?_reverse] at hc
  exact headNot_dropWhile jsWs l.reverse c hc

theorem trimR_eq_self {l : List Char} (h : LastNot jsWs l) : trimR l = l := by
  unfold trimR
  have hrev : HeadNot jsWs l.reverse := by
    intro c hc
    rw [List.head?_reverse] at hc
    exact h c hc
  rw [trimL_eq_self hrev, List.reverse_reverse]

theorem trimR_headNot {l : List Char} (h : HeadNot jsWs l) :
    HeadNot jsWs (trimR l) := by
  intro c hc
  unfold trimR at hc
  rcases getLast?_dropWhile_or jsWs l.reverse with hnil | hlast
  · unfold trimL at hc
    rw [hnil] at hc
    cases hc
  · unfold trimL at hc
    rw [List.head?_reverse, hlast, List.getLast?_reverse] at hc
    exact h c hc

theorem trimL_lastNot {l : List Char} (h : LastNot jsWs l) :
    LastNot jsWs (trimL l) := by
  intro c hc
  unfold trimL at hc
  rcases getLast?_dropWhile_or jsWs l with hnil | hlast
  · rw [hnil] at hc
    cases hc
  · rw [hlast] at hc
    exact h c hc

theorem jsTrim_headNot (l : List Char) : HeadNot jsWs (jsTrim l) :=
  trimR_headNot (trimL_headNot l)

theorem jsTrim_lastNot (l : List Char) : LastNot jsWs (jsTrim l) :=
  trimR_lastNot (trimL l)

theorem jsTrim_eq_self {l : List Char} (h1 : HeadNot jsWs l)
    (h2 : LastNot jsWs l) : jsTrim l = l := by
  unfold jsTrim
  rw [trimL_eq_self h1, trimR_eq_self h2]

theorem stripWs_allNot (l : List Char) : AllNot jsWs (stripWs l) := by
  intro c hc
  have := List.mem_filter.mp hc
  simpa using this.2

theorem stripWs_eq_self {l : List Char} (h : AllNot jsWs l) : stripWs l = l := by
  unfold stripWs
  rw [List.filter_eq_self]
  intro a ha
  simp [h a ha]

theorem stripZeros_headNot (l : List Char) :
    HeadNot (fun c => c == '0') (stripZeros l) :=
  headNot_dropWhile _ l

theorem stripZeros_eq_self {l : List Char} (h : HeadNot (fun c => c == '0') l) :
    stripZeros l = l :=
  dropWhile_eq_self_of_headNot h

theorem stripZeros_allNot {p : Char → Bool} {l : List Char} (h : AllNot p l) :
    AllNot p (stripZeros l) :=
  allNot_mem_of_sub (fun _ hc => (List.dropWhile_sublist _).subset hc) h

theorem jsTrim_eq_self_of_allNot {l : List Char} (h : AllNot jsWs l) :
    jsTrim l = l :=
  jsTrim_eq_self (allNot_headNot h) (allNot_lastNot h)

/-! ## Towards C3: character-class facts -/

theorem contains_mem {c : Char} {l : List Char} (h : l.contains c = true) :
    c ∈ l := by
  obtain ⟨b, hb, he⟩ := List.contains_iff_exists_mem_beq.mp h
  rw [eq_of_beq he]
  exact hb

theorem isDig_mem {c : Char} (h : isDig c = true) : c ∈ digitChars :=
  contains_mem h

theorem isAlphaC_mem {c : Char} (h : isAlphaC c = true) :
    c ∈ lowerAlphaChars ++ upperAlphaChars := by
  unfold isAlphaC at h
  rw [Bool.or_eq_true] at h
  rw [List.mem_append]
  rcases h with h | h
  · exact Or.inl (contains_mem h)
  · exact Or.inr (contains_mem h)

/-- Everything the development needs about an ASCII letter and its
case images under the JS case maps. -/
theorem alphaFacts {c : Char} (h : isAlphaC c = true) :
    jsWs c = false ∧ isDig c = false ∧ c ≠ '-' ∧
    isAlphaC (lowerChar c) = true ∧ isAlphaC (upperChar (lowerChar c)) = true ∧
    lowerChar (lowerChar c) = lowerChar c ∧
    lowerChar (upperChar (lowerChar c)) = lowerChar c ∧
    jsWs (lowerChar c) = false ∧ jsWs (upperChar (lowerChar c)) = false ∧
    isDig (lowerChar c) = false ∧ isDig (upperChar (lowerChar c)) = false ∧
    lowerChar c ≠ '-' ∧ upperChar (lowerChar c) ≠ '-' := by
  have hm := isAlphaC_mem h
  fin_cases hm <;> decide

/-- Everything the development needs about a digit character. -/
theorem digitFacts {c : Char} (h : isDig c = true) :
    jsWs c = false ∧ isAlphaC c = false ∧ c ≠ '-' ∧ dv c < 10 ∧ dc (dv c) = c := by
  have hm := isDig_mem h
  fin_cases hm <;> decide

/-- Everything the development needs about a rendered digit. -/
theorem dcFacts {n : Nat} (h : n < 10) :
    isDig (dc n) = true ∧ dv (dc n) = n ∧ jsWs (dc n) = false ∧
    isAlphaC (dc n) = false ∧ dc n ≠ '-' ∧ (0 < n → dc n ≠ '0') := by
  interval_cases n <;> exact ⟨rfl, rfl, rfl, rfl, by decide, by decide⟩

/-! ## Towards C3: shape facts of the canonical date rendering -/

theorem cYMD_allNot_ws (y m d : Nat) : AllNot jsWs (cYMD y m d) := by
  intro c hc
  unfold cYMD at hc
  simp only [List.mem_cons, List.not_mem_nil, or_false] at hc
  rcases hc with rfl | rfl | rfl | rfl | rfl | rfl | rfl | rfl | rfl | rfl
  all_goals first
    | exact (dcFacts (Nat.mod_lt _ (by decide))).2.2.1
    | decide

theorem cYMD_head? (y m d : Nat) :
    (cYMD y m d).head? = some (dc (y / 1000 % 10)) := rfl

theorem cYMD_getLast? (y m d : Nat) :
    (cYMD y m d).getLast? = some (dc (d % 10)) := by
  show ([dc (y / 1000 % 10), dc (y / 100 % 10), dc (y / 10 % 10), dc (y % 10), '-',
    dc (m / 10 % 10), dc (m % 10), '-', dc (d / 10 % 10)] ++ [dc (d % 10)]).getLast? = _
  rw [List.getLast?_concat]

theorem cYMD_headNot_ws (y m d : Nat) : HeadNot jsWs (cYMD y m d) :=
  allNot_headNot (cYMD_allNot_ws y m d)

theorem cYMD_lastNot_ws (y m d : Nat) : LastNot jsWs (cYMD y m d) :=
  allNot_lastNot (cYMD_allNot_ws y m d)

theorem cYMD_headNot_zero {y : Nat} (m d : Nat) (hy : 1900 < y)
    (hy2 : y < 10000) :
    HeadNot (fun c => c == '0') (cYMD y m d) := by
  intro c hc
  rw [cYMD_head?] at hc
  cases hc
  have hlt : y / 1000 % 10 < 10 := Nat.mod_lt _ (by decide)
  have hpos : 0 < y / 1000 % 10 := by omega
  have := (dcFacts hlt).2.2.2.2.2 hpos
  simpa using this

/-! ## Towards C3: the native ISO branch on canonical renderings -/

/-- Rendering a date and decomposing it again returns the same fields. -/
theorem isoDecomp_cYMD {y m d : Nat} (hy : y < 10000) (hm : m < 100)
    (hd : d < 100) : isoDecomp (cYMD y m d) = some (y, m, d) := by
  have h1 := dcFacts (show y / 1000 % 10 < 10 from Nat.mod_lt _ (by decide))
  have h2 := dcFacts (show y / 100 % 10 < 10 from Nat.mod_lt _ (by decide))
  have h3 := dcFacts (show y / 10 % 10 < 10 from Nat.mod_lt _ (by decide))
  have h4 := dcFacts (show y % 10 < 10 from Nat.mod_lt _ (by decide))
  have h5 := dcFacts (show m / 10 % 10 < 10 from Nat.mod_lt _ (by decide))
  have h6 := dcFacts (show m % 10 < 10 from Nat.mod_lt _ (by decide))
  have h7 := dcFacts (show d / 10 % 10 < 10 from Nat.mod_lt _ (by decide))
  have h8 := dcFacts (show d % 10 < 10 from Nat.mod_lt _ (by decide))
  show isoDecomp [dc (y / 1000 % 10), dc (y / 100 % 10), dc (y / 10 % 10),
    dc (y % 10), '-', dc (m / 10 % 10), dc (m % 10), '-', dc (d / 10 % 10),
    dc (d % 10)] = some (y, m, d)
  simp only [isoDecomp]
  rw [if_pos ⟨trivial, trivial, h1.1, h2.1, h3.1, h4.1, h5.1, h6.1, h7.1, h8.1⟩]
  rw [h1.2.1, h2.2.1, h3.2.1, h4.2.1, h5.2.1, h6.2.1, h7.2.1, h8.2.1]
  simp only [Option.some.injEq, Prod.mk.injEq]
  refine ⟨by omega, by omega, by omega⟩

/-- Soundness of the ISO decomposition: a successfully decomposed
string *is* the canonical rendering of the decomposed fields (so the
native branch of the date step is the identity on the strings it
accepts). -/
theorem isoDecomp_sound {u : List Char} {y m d : Nat}
    (h : isoDecomp u = some (y, m, d)) :
    u = cYMD y m d ∧ y < 10000 ∧ m < 100 ∧ d < 100 := by
  unfold isoDecomp at h
  split at h
  case h_2 => cases h
  case h_1 a b c d' s1 e f s2 g h' =>
    by_cases hcond : s1 = '-' ∧ s2 = '-' ∧ isDig a = true ∧ isDig b = true ∧
        isDig c = true ∧ isDig d' = true ∧ isDig e = true ∧ isDig f = true ∧
        isDig g = true ∧ isDig h' = true
    · rw [if_pos hcond] at h
      obtain ⟨hs1, hs2, ha, hb, hc, hd', he, hf, hg, hh⟩ := hcond
      simp only [Option.some.injEq, Prod.mk.injEq] at h
      obtain ⟨hy, hm, hd⟩ := h
      have fa := digitFacts ha
      have fb := digitFacts hb
      have fc := digitFacts hc
      have fd := digitFacts hd'
      have fe := digitFacts he
      have ff := digitFacts hf
      have fg := digitFacts hg
      have fh := digitFacts hh
      subst hs1
      subst hs2
      constructor
      · unfold cYMD
        have e1 : y / 1000 % 10 = dv a := by omega
        have e2 : y / 100 % 10 = dv b := by omega
        have e3 : y / 10 % 10 = dv c := by omega
        have e4 : y % 10 = dv d' := by omega
        have e5 : m / 10 % 10 = dv e := by omega
        have e6 : m % 10 = dv f := by omega
        have e7 : d / 10 % 10 = dv g := by omega
        have e8 : d % 10 = dv h' := by omega
        rw [e1, e2, e3, e4, e5, e6, e7, e8, fa.2.2.2.2, fb.2.2.2.2, fc.2.2.2.2,
          fd.2.2.2.2, fe.2.2.2.2, ff.2.2.2.2, fg.2.2.2.2, fh.2.2.2.2]
      · omega
    · rw [if_neg hcond] at h
      cases h

/-! ## Towards C3: the `DD-MON-YY` decomposition -/

/-- The facts delivered by a successful `DD-MON-YY` decomposition. -/
def DdmonShape (l ds1 : List Char) (p q r : Char) (ds2 : List Char) : Prop :=
  l = ds1 ++ '-' :: p :: q :: r :: '-' :: ds2 ∧
  (∀ c ∈ ds1, isDig c = true) ∧ isAlphaC p = true ∧ isAlphaC q = true ∧
  isAlphaC r = true ∧ (∀ c ∈ ds2, isDig c = true) ∧
  (ds1.length = 1 ∨ ds1.length = 2) ∧
  (ds2.length = 2 ∨ ds2.length = 3 ∨ ds2.length = 4)

theorem ddmonDecomp_sound {l ds1 : List Char} {p q r : Char} {ds2 : List Char}
    (h : ddmonDecomp l = some (ds1, p, q, r, ds2)) :
    DdmonShape l ds1 p q r ds2 := by
  unfold ddmonDecomp at h
  split at h
  case h_1 a s1 p' q' r' s2 x y =>
    split_ifs at h with hc
    obtain ⟨h1, h2, h3, h4, h5, h6, h7, h8⟩ := hc
    simp only [Option.some.injEq, Prod.mk.injEq] at h
    obtain ⟨rfl, rfl, rfl, rfl, rfl⟩ := h
    subst h2
    subst h6
    refine ⟨rfl, ?_, h3, h4, h5, ?_, by simp, by simp⟩
    · intro c hc'
      simp only [List.mem_singleton] at hc'
      subst hc'
      exact h1
    · intro c hc'
      simp only [List.mem_cons, List.not_mem_nil, or_false] at hc'
      rcases hc' with rfl | rfl
      · exact h7
      · exact h8
  case h_2 a s1 p' q' r' s2 x y z =>
    split_ifs at h with hc hc2
    · obtain ⟨h1, h2, h3, h4, h5, h6, h7, h8, h9⟩ := hc
      simp only [Option.some.injEq, Prod.mk.injEq] at h
      obtain ⟨rfl, rfl, rfl, rfl, rfl⟩ := h
      subst h2
      subst h6
      refine ⟨rfl, ?_, h3, h4, h5, ?_, by simp, by simp⟩
      · intro c hc'
        simp only [List.mem_singleton] at hc'
        subst hc'
        exact h1
      · intro c hc'
        simp only [List.mem_cons, List.not_mem_nil, or_false] at hc'
        rcases hc' with rfl | rfl | rfl
        · exact h7
        · exact h8
        · exact h9
    · obtain ⟨h1, h2, h3, h4, h5, h6, h7, h8, h9⟩ := hc2
      simp only [Option.some.injEq, Prod.mk.injEq] at h
      obtain ⟨rfl, rfl, rfl, rfl, rfl⟩ := h
      subst h3
      subst h7
      refine ⟨rfl, ?_, h4, h5, h6, ?_, by simp, by simp⟩
      · intro c hc'
        simp only [List.mem_cons, List.not_mem_nil, or_false] at hc'
        rcases hc' with rfl | rfl
        · exact h1
        · exact h2
      · intro c hc'
        simp only [List.mem_cons, List.not_mem_nil, or_false] at hc'
        rcases hc' with rfl | rfl
        · exact h8
        · exact h9
  case h_3 a s1 p' q' r' s2 x y z w =>
    split_ifs at h with hc hc2
    · obtain ⟨h1, h2, h3, h4, h5, h6, h7, h8, h9, h10⟩ := hc
      simp only [Option.some.injEq, Prod.mk.injEq] at h
      obtain ⟨rfl, rfl, rfl, rfl, rfl⟩ := h
      subst h2
      subst h6
      refine ⟨rfl, ?_, h3, h4, h5, ?_, by simp, by simp⟩
      · intro c hc'
        simp only [List.mem_singleton] at hc'
        subst hc'
        exact h1
      · intro c hc'
        simp only [List.mem_cons, List.not_mem_nil, or_false] at hc'
        rcases hc' with rfl | rfl | rfl | rfl
        · exact h7
        · exact h8
        · exact h9
        · exact h10
    · obtain ⟨h1, h2, h3, h4, h5, h6, h7, h8, h9, h10⟩ := hc2
      simp only [Option.some.injEq, Prod.mk.injEq] at h
      obtain ⟨rfl, rfl, rfl, rfl, rfl⟩ := h
      subst h3
      subst h7
      refine ⟨rfl, ?_, h4, h5, h6, ?_, by simp, by simp⟩
      · intro c hc'
        simp only [List.mem_cons, List.not_mem_nil, or_false] at hc'
        rcases hc' with rfl | rfl
        · exact h1
        · exact h2
      · intro c hc'
        simp only [List.mem_cons, List.not_mem_nil, or_false] at hc'
        rcases hc' with rfl | rfl | rfl
        · exact h8
        · exact h9
        · exact h10
  case h_4 a s1 p' q' r' s2 x y z w v =>
    split_ifs at h with hc
    obtain ⟨h1, h2, h3, h4, h5, h6, h7, h8, h9, h10, h11⟩ := hc
    simp only [Option.some.injEq, Prod.mk.injEq] at h
    obtain ⟨rfl, rfl, rfl, rfl, rfl⟩ := h
    subst h3
    subst h7
    refine ⟨rfl, ?_, h4, h5, h6, ?_, by simp, by simp⟩
    · intro c hc'
      simp only [List.mem_cons, List.not_mem_nil, or_false] at hc'
      rcases hc' with rfl | rfl
      · exact h1
      · exact h2
    · intro c hc'
      simp only [List.mem_cons, List.not_mem_nil, or_false] at hc'
      rcases hc' with rfl | rfl | rfl | rfl
      · exact h8
      · exact h9
      · exact h10
      · exact h11
  case h_5 => cases h

theorem ddmonDecomp_build {ds1 : List Char} {p q r : Char} {ds2 : List Char}
    (h1 : ∀ c ∈ ds1, isDig c = true) (h2 : isAlphaC p = true)
    (h3 : isAlphaC q = true) (h4 : isAlphaC r = true)
    (h5 : ∀ c ∈ ds2, isDig c = true)
    (hl1 : ds1.length = 1 ∨ ds1.length = 2)
    (hl2 : ds2.length = 2 ∨ ds2.length = 3 ∨ ds2.length = 4) :
    ddmonDecomp (ds1 ++ '-' :: p :: q :: r :: '-' :: ds2) =
      some (ds1, p, q, r, ds2) := by
  have hshape1 : (∃ a, ds1 = [a]) ∨ ∃ a b, ds1 = [a, b] := by
    rcases hl1 with h | h
    · exact Or.inl (List.length_eq_one.mp h)
    · exact Or.inr (List.length_eq_two.mp h)
  have hshape2 : (∃ x y, ds2 = [x, y]) ∨ (∃ x y z, ds2 = [x, y, z]) ∨
      ∃ x y z w, ds2 = [x, y, z, w] := by
    rcases hl2 with h | h | h
    · exact Or.inl (List.length_eq_two.mp h)
    · exact Or.inr (Or.inl (List.length_eq_three.mp h))
    · refine Or.inr (Or.inr ?_)
      rcases ds2 with _ | ⟨x, t⟩
      · cases h
      · obtain ⟨y, z, w, rfl⟩ := List.length_eq_three.mp (by simpa using h)
        exact ⟨x, y, z, w, rfl⟩
  rcases hshape1 with ⟨a, rfl⟩ | ⟨a, b, rfl⟩ <;>
    rcases hshape2 with ⟨x, y, rfl⟩ | ⟨x, y, z, rfl⟩ | ⟨x, y, z, w, rfl⟩ <;>
    simp only [List.cons_append, List.nil_append] <;>
    simp only [ddmonDecomp] <;>
    split_ifs with hc <;>
    first
      | rfl
      | (exfalso
         first
           | exact (digitFacts (h1 b (by simp))).2.2.1 hc.2.1
           | (apply hc
              simp_all))

theorem isoDecomp_ddmonShape_none {ds1 : List Char} {p q r : Char}
    {ds2 : List Char} (h1 : ∀ c ∈ ds1, isDig c = true)
    (h3 : isAlphaC q = true) (h4 : isAlphaC r = true)
    (hl1 : ds1.length = 1 ∨ ds1.length = 2)
    (hl2 : ds2.length = 2 ∨ ds2.length = 3 ∨ ds2.length = 4) :
    isoDecomp (ds1 ++ '-' :: p :: q :: r :: '-' :: ds2) = none := by
  have hshape1 : (∃ a, ds1 = [a]) ∨ ∃ a b, ds1 = [a, b] := by
    rcases hl1 with h | h
    · exact Or.inl (List.length_eq_one.mp h)
    · exact Or.inr (List.length_eq_two.mp h)
  have hshape2 : (∃ x y, ds2 = [x, y]) ∨ (∃ x y z, ds2 = [x, y, z]) ∨
      ∃ x y z w, ds2 = [x, y, z, w] := by
    rcases hl2 with h | h | h
    · exact Or.inl (List.length_eq_two.mp h)
    · exact Or.inr (Or.inl (List.length_eq_three.mp h))
    · refine Or.inr (Or.inr ?_)
      rcases ds2 with _ | ⟨x, t⟩
      · cases h
      · obtain ⟨y, z, w, rfl⟩ := List.length_eq_three.mp (by simpa using h)
        exact ⟨x, y, z, w, rfl⟩
  rcases hshape1 with ⟨a, rfl⟩ | ⟨a, b, rfl⟩ <;>
    rcases hshape2 with ⟨x, y, rfl⟩ | ⟨x, y, z, rfl⟩ | ⟨x, y, z, w, rfl⟩ <;>
    simp only [List.cons_append, List.nil_append] <;>
    first
      | rfl
      | (simp only [isoDecomp]
         rw [if_neg]
         intro hcond
         first
           | exact (alphaFacts h4).2.2.1 hcond.1
           | exact (alphaFacts h3).2.2.1 hcond.1)

/-- Title-casing a `DD-MON-YY` shape yields a `DD-MON-YY` shape
decomposing into the cased letters. -/
theorem titleCased_shape {l ds1 : List Char} {p q r : Char} {ds2 : List Char}
    (h : DdmonShape l ds1 p q r ds2) :
    DdmonShape (titleCased ds1 p q r ds2) ds1
      (upperChar (lowerChar p)) (lowerChar q) (lowerChar r) ds2 := by
  obtain ⟨-, h1, h2, h3, h4, h5, hl1, hl2⟩ := h
  exact ⟨rfl, h1, (alphaFacts h2).2.2.2.2.1, (alphaFacts h3).2.2.2.1,
    (alphaFacts h4).2.2.2.1, h5, hl1, hl2⟩

/-- Title-casing is idempotent on the `DD-MON-YY` shapes. -/
theorem titleCased_fixpoint {ds1 : List Char} {p q r : Char} {ds2 : List Char}
    (h2 : isAlphaC p = true) (h3 : isAlphaC q = true) (h4 : isAlphaC r = true) :
    titleCased ds1 (upperChar (lowerChar p)) (lowerChar q) (lowerChar r) ds2 =
      titleCased ds1 p q r ds2 := by
  unfold titleCased
  rw [(alphaFacts h2).2.2.2.2.2.2.1, (alphaFacts h3).2.2.2.2.2.1,
    (alphaFacts h4).2.2.2.2.2.1]

/-- No whitespace anywhere in a title-cased `DD-MON-YY` shape. -/
theorem titleCased_allNot_ws {ds1 : List Char} {p q r : Char} {ds2 : List Char}
    (h1 : ∀ c ∈ ds1, isDig c = true) (h2 : isAlphaC p = true)
    (h3 : isAlphaC q = true) (h4 : isAlphaC r = true)
    (h5 : ∀ c ∈ ds2, isDig c = true) :
    AllNot jsWs (titleCased ds1 p q r ds2) := by
  intro c hc
  unfold titleCased at hc
  rw [List.mem_append] at hc
  rcases hc with hc | hc
  · exact (digitFacts (h1 c hc)).1
  · simp only [List.mem_cons] at hc
    rcases hc with rfl | rfl | rfl | rfl | rfl | hc
    · rfl
    · exact (alphaFacts h2).2.2.2.2.2.2.2.2.1
    · exact (alphaFacts h3).2.2.2.2.2.2.2.1
    · exact (alphaFacts h4).2.2.2.2.2.2.2.1
    · rfl
    · exact (digitFacts (h5 c hc)).1

/-- Two lists sharing a non-empty common front share their `HeadNot`
behaviour. -/
theorem headNot_append_swap {p : Char → Bool} {ds1 x1 x2 : List Char}
    (hne : ds1 ≠ []) (h : HeadNot p (ds1 ++ x1)) : HeadNot p (ds1 ++ x2) := by
  intro c hc
  rcases ds1 with _ | ⟨a, t⟩
  · exact absurd rfl hne
  · simp only [List.cons_append, List.head?_cons] at hc ⊢
    cases hc
    exact h c rfl

/-! ## Towards C3: what a successful probe guarantees -/

theorem daysInMonth_le (y m : Nat) : daysInMonth y m ≤ 31 := by
  unfold daysInMonth
  split_ifs <;> omega

theorem validateBuild_bounds {cy : Nat} {p : PDate} {ymd : Ymd}
    (h : validateBuild cy p = some ymd) :
    1 ≤ ymd.m ∧ ymd.m ≤ 12 ∧ 1 ≤ ymd.d ∧ ymd.d ≤ daysInMonth ymd.y ymd.m := by
  unfold validateBuild at h
  split at h
  · split_ifs at h with hm hd _hh
    simp only [Option.some.injEq] at h
    subst h
    exact ⟨hm.1, hm.2, hd.1, hd.2⟩
  · cases h

theorem dateFnsParse_bounds {cy : Nat} {fmt : List Tok} {l : List Char}
    {ymd : Ymd} (h : dateFnsParse cy fmt l = some ymd) :
    1 ≤ ymd.m ∧ ymd.m ≤ 12 ∧ 1 ≤ ymd.d ∧ ymd.d ≤ daysInMonth ymd.y ymd.m := by
  unfold dateFnsParse at h
  split at h
  · exact validateBuild_bounds h
  · cases h

theorem findSome?_some_imp {α β : Type} {f : α → Option β} {l : List α} {b : β}
    (h : l.findSome? f = some b) : ∃ a ∈ l, f a = some b := by
  induction l with
  | nil => cases h
  | cons x xs ih =>
    rw [List.findSome?_cons] at h
    cases hf : f x with
    | some v =>
      rw [hf] at h
      cases h
      exact ⟨x, by simp, hf⟩
    | none =>
      rw [hf] at h
      obtain ⟨a, ha, hfa⟩ := ih h
      exact ⟨a, by simp [ha], hfa⟩

theorem firstParse_bounds {cy : Nat} {l : List Char} {ymd : Ymd}
    (h : firstParse cy l = some ymd) :
    1900 < ymd.y ∧ ymd.y < 2100 ∧ jsIsoValid ymd.y ymd.m ymd.d = true := by
  obtain ⟨fmt, -, hf⟩ := findSome?_some_imp h
  split at hf
  case h_1 x heq =>
    split_ifs at hf with hy
    simp only [Option.some.injEq] at hf
    subst hf
    have hb := dateFnsParse_bounds heq
    refine ⟨hy.1, hy.2, ?_⟩
    unfold jsIsoValid
    simp only [Bool.and_eq_true, decide_eq_true_eq]
    exact ⟨⟨⟨hb.1, hb.2.1⟩, hb.2.2.1⟩, hb.2.2.2⟩
  case h_2 => cases hf

/-! ## Towards C3: the date step fixes its own outputs -/

theorem ddmonDecomp_cYMD (y m d : Nat) : ddmonDecomp (cYMD y m d) = none := by
  have h2 := dcFacts (show y / 100 % 10 < 10 from Nat.mod_lt _ (by decide))
  have h3 := dcFacts (show y / 10 % 10 < 10 from Nat.mod_lt _ (by decide))
  show ddmonDecomp [dc (y / 1000 % 10), dc (y / 100 % 10), dc (y / 10 % 10),
    dc (y % 10), '-', dc (m / 10 % 10), dc (m % 10), '-', dc (d / 10 % 10),
    dc (d % 10)] = none
  simp only [ddmonDecomp]
  rw [if_neg, if_neg]
  · intro hcond
    exact h3.2.2.2.2.1 hcond.2.2.1
  · intro hcond
    exact h2.2.2.2.2.1 hcond.2.1

theorem jsIsoValid_bounds {y m d : Nat} (h : jsIsoValid y m d = true) :
    1 ≤ m ∧ m ≤ 12 ∧ 1 ≤ d ∧ d ≤ daysInMonth y m := by
  unfold jsIsoValid at h
  simp only [Bool.and_eq_true, decide_eq_true_eq] at h
  exact ⟨h.1.1.1, h.1.1.2, h.1.2, h.2⟩

theorem dateStep_cYMD {cy y m d : Nat} (hy1 : 1900 < y) (hy2 : y < 2100)
    (hv : jsIsoValid y m d = true) : dateStep cy (cYMD y m d) = cYMD y m d := by
  have hmd := jsIsoValid_bounds hv
  have hdim := daysInMonth_le y m
  have hm100 : m < 100 := by omega
  have hd100 : d < 100 := by omega
  unfold dateStep
  simp only [ddmonDecomp_cYMD,
    isoDecomp_cYMD (show y < 10000 by omega) hm100 hd100, hv, if_true]

/-- Case analysis on the date step: it leaves the string unchanged,
or produces a canonical in-window rendering via the probe, or
title-cases a `DD-MON-YY` shape whose every parse attempt failed. -/
theorem dateStep_cases (cy : Nat) (u : List Char) :
    dateStep cy u = u ∨
    (∃ y m d, dateStep cy u = cYMD y m d ∧ 1900 < y ∧ y < 2100 ∧
      jsIsoValid y m d = true) ∨
    (∃ ds1 p q r ds2, DdmonShape u ds1 p q r ds2 ∧
      dateStep cy u = titleCased ds1 p q r ds2 ∧
      isoDecomp (titleCased ds1 p q r ds2) = none ∧
      firstParse cy (titleCased ds1 p q r ds2) = none) := by
  cases hdd : ddmonDecomp u with
  | none =>
    cases hiso : isoDecomp u with
    | some ymd =>
      obtain ⟨y, m, d⟩ := ymd
      by_cases hv : jsIsoValid y m d = true
      · left
        have hs := isoDecomp_sound hiso
        unfold dateStep
        simp only [hdd, hiso, hv, if_true]
        exact hs.1.symm
      · cases hfp : firstParse cy u with
        | some x =>
          right
          left
          have hb := firstParse_bounds hfp
          refine ⟨x.y, x.m, x.d, ?_, hb.1, hb.2.1, hb.2.2⟩
          unfold dateStep probeStep
          simp only [hdd, hiso, hv, hfp, Bool.false_eq_true, if_false]
        | none =>
          left
          unfold dateStep probeStep
          simp only [hdd, hiso, hv, hfp, Bool.false_eq_true, if_false]
    | none =>
      cases hfp : firstParse cy u with
      | some x =>
        right
        left
        have hb := firstParse_bounds hfp
        refine ⟨x.y, x.m, x.d, ?_, hb.1, hb.2.1, hb.2.2⟩
        unfold dateStep probeStep
        simp only [hdd, hiso, hfp]
      | none =>
        left
        unfold dateStep probeStep
        simp only [hdd, hiso, hfp]
  | some parts =>
    obtain ⟨ds1, p, q, r, ds2⟩ := parts
    have hs := ddmonDecomp_sound hdd
    have hts := titleCased_shape hs
    have htiso : isoDecomp (titleCased ds1 p q r ds2) = none := by
      have := @isoDecomp_ddmonShape_none ds1 (upperChar (lowerChar p))
        (lowerChar q) (lowerChar r) ds2 hts.2.1 hts.2.2.2.1 hts.2.2.2.2.1
        hts.2.2.2.2.2.2.1 hts.2.2.2.2.2.2.2
      rw [← hts.1] at this
      exact this
    cases hfp : firstParse cy (titleCased ds1 p q r ds2) with
    | some x =>
      right
      left
      have hb := firstParse_bounds hfp
      refine ⟨x.y, x.m, x.d, ?_, hb.1, hb.2.1, hb.2.2⟩
      unfold dateStep probeStep
      simp only [hdd, htiso, hfp]
    | none =>
      right
      right
      refine ⟨ds1, p, q, r, ds2, hs, ?_, htiso, hfp⟩
      unfold dateStep probeStep
      simp only [hdd, htiso, hfp]

/-- The date step is idempotent. -/
theorem dateStep_idem (cy : Nat) (u : List Char) :
    dateStep cy (dateStep cy u) = dateStep cy u := by
  rcases dateStep_cases cy u with heq |
    ⟨y, m, d, heq, hy1, hy2, hv⟩ |
    ⟨ds1, p, q, r, ds2, hs, heq, htiso, hfp⟩
  · rw [heq, heq]
  · rw [heq, dateStep_cYMD hy1 hy2 hv]
  · rw [heq]
    have hts := titleCased_shape hs
    have hdd2 : ddmonDecomp (titleCased ds1 p q r ds2) =
        some (ds1, upperChar (lowerChar p), lowerChar q, lowerChar r, ds2) := by
      have := ddmonDecomp_build hts.2.1 hts.2.2.1 hts.2.2.2.1 hts.2.2.2.2.1
        hts.2.2.2.2.2.1 hts.2.2.2.2.2.2.1 hts.2.2.2.2.2.2.2
      rw [← hts.1] at this
      exact this
    unfold dateStep probeStep
    simp only [hdd2]
    rw [titleCased_fixpoint hs.2.2.1 hs.2.2.2.1 hs.2.2.2.2.1]
    simp only [htiso, hfp]

/-- The date step preserves whitespace-freeness. -/
theorem dateStep_allNot_ws {cy : Nat} {u : List Char} (h : AllNot jsWs u) :
    AllNot jsWs (dateStep cy u) := by
  rcases dateStep_cases cy u with heq | ⟨y, m, d, heq, -, -, -⟩ |
    ⟨ds1, p, q, r, ds2, hs, heq, -, -⟩
  · rw [heq]; exact h
  · rw [heq]; exact cYMD_allNot_ws y m d
  · rw [heq]
    exact titleCased_allNot_ws hs.2.1 hs.2.2.1 hs.2.2.2.1 hs.2.2.2.2.1
      hs.2.2.2.2.2.1

/-- The date step preserves whitespace-free edges. -/
theorem dateStep_edges {cy : Nat} {u : List Char} (h1 : HeadNot jsWs u)
    (h2 : LastNot jsWs u) :
    HeadNot jsWs (dateStep cy u) ∧ LastNot jsWs (dateStep cy u) := by
  rcases dateStep_cases cy u with heq | ⟨y, m, d, heq, -, -, -⟩ |
    ⟨ds1, p, q, r, ds2, hs, heq, -, -⟩
  · rw [heq]; exact ⟨h1, h2⟩
  · rw [heq]; exact ⟨cYMD_headNot_ws y m d, cYMD_lastNot_ws y m d⟩
  · rw [heq]
    have hall := titleCased_allNot_ws hs.2.1 hs.2.2.1 hs.2.2.2.1 hs.2.2.2.2.1
      hs.2.2.2.2.2.1
    exact ⟨allNot_headNot hall, allNot_lastNot hall⟩

/-- The date step preserves a zero-free head. -/
theorem dateStep_headNot_zero {cy : Nat} {u : List Char}
    (h : HeadNot (fun c => c == '0') u) :
    HeadNot (fun c => c == '0') (dateStep cy u) := by
  rcases dateStep_cases cy u with heq | ⟨y, m, d, heq, hy1, hy2, -⟩ |
    ⟨ds1, p, q, r, ds2, hs, heq, -, -⟩
  · rw [heq]; exact h
  · rw [heq]; exact cYMD_headNot_zero m d hy1 (by omega)
  · rw [heq]
    have hne : ds1 ≠ [] := by
      rcases hs.2.2.2.2.2.2.1 with hl | hl <;>
        (intro hnil; rw [hnil] at hl; cases hl)
    rw [hs.1] at h
    exact headNot_append_swap hne h

/-! ## Towards C3: idempotence of the whole pipeline -/

/-- A string fixed by every enabled stage is fixed by the pipeline. -/
theorem normCore_fix (cy : Nat) (trim za da : Bool) (w : List Char)
    (hTrim : jsTrim w = w)
    (hWs : trim = true → stripWs w = w)
    (hZ : za = true → stripZeros w = w)
    (hD : da = true → dateStep cy w = w) :
    normCore cy trim za da w = w := by
  show (if da = true then
      dateStep cy (if za = true then
        stripZeros (if trim = true then stripWs (jsTrim w) else jsTrim w)
        else (if trim = true then stripWs (jsTrim w) else jsTrim w))
      else (if za = true then
        stripZeros (if trim = true then stripWs (jsTrim w) else jsTrim w)
        else (if trim = true then stripWs (jsTrim w) else jsTrim w))) = w
  have h2 : (if trim = true then stripWs (jsTrim w) else jsTrim w) = w := by
    cases trim with
    | true => rw [if_pos rfl, hTrim, hWs rfl]
    | false => rw [if_neg (by simp), hTrim]
  rw [h2]
  have h3 : (if za = true then stripZeros w else w) = w := by
    cases za with
    | true => rw [if_pos rfl, hZ rfl]
    | false => rw [if_neg (by simp)]
  rw [h3]
  cases da with
  | true => rw [if_pos rfl, hD rfl]
  | false => rw [if_neg (by simp)]

/-- Idempotence of the pipeline when internal whitespace removal is
enabled (any zero/date settings). -/
theorem normCore_idem_trim (cy : Nat) (za da : Bool) (l0 : List Char) :
    normCore cy true za da (normCore cy true za da l0) =
      normCore cy true za da l0 := by
  have hu_def : normCore cy true za da l0 =
      (if da = true then
        dateStep cy (if za = true then stripZeros (stripWs (jsTrim l0))
          else stripWs (jsTrim l0))
        else (if za = true then stripZeros (stripWs (jsTrim l0))
          else stripWs (jsTrim l0))) := rfl
  set u := if za = true then stripZeros (stripWs (jsTrim l0))
    else stripWs (jsTrim l0) with hu
  have hu_all : AllNot jsWs u := by
    rw [hu]
    split_ifs
    · exact stripZeros_allNot (stripWs_allNot _)
    · exact stripWs_allNot _
  have hu_zero : za = true → HeadNot (fun c => c == '0') u := by
    intro hza
    rw [hu, if_pos hza]
    exact stripZeros_headNot _
  rw [hu_def]
  cases da with
  | true =>
    simp only [if_pos rfl]
    refine normCore_fix cy true za true (dateStep cy u) ?_ ?_ ?_ ?_
    · exact jsTrim_eq_self_of_allNot (dateStep_allNot_ws hu_all)
    · intro _
      exact stripWs_eq_self (dateStep_allNot_ws hu_all)
    · intro hza
      exact stripZeros_eq_self (dateStep_headNot_zero (hu_zero hza))
    · intro _
      exact dateStep_idem cy u
  | false =>
    simp only [Bool.false_eq_true, if_false]
    refine normCore_fix cy true za false u ?_ ?_ ?_ ?_
    · exact jsTrim_eq_self_of_allNot hu_all
    · intro _
      exact stripWs_eq_self hu_all
    · intro hza
      exact stripZeros_eq_self (hu_zero hza)
    · intro hda
      cases hda

/-- Idempotence of the pipeline when leading-zero removal does not
apply (any whitespace/date settings). -/
theorem normCore_idem_noza (cy : Nat) (trim da : Bool) (l0 : List Char) :
    normCore cy trim false da (normCore cy trim false da l0) =
      normCore cy trim false da l0 := by
  cases trim with
  | true => exact normCore_idem_trim cy false da l0
  | false =>
    have hu_def : normCore cy false false da l0 =
        (if da = true then dateStep cy (jsTrim l0) else jsTrim l0) := rfl
    rw [hu_def]
    cases da with
    | true =>
      simp only [if_pos rfl]
      have hedges := @dateStep_edges cy (jsTrim l0) (jsTrim_headNot l0) (jsTrim_lastNot l0)
      refine normCore_fix cy false false true (dateStep cy (jsTrim l0))
        ?_ ?_ ?_ ?_
      · exact jsTrim_eq_self hedges.1 hedges.2
      · intro hc
        cases hc
      · intro hc
        cases hc
      · intro _
        exact dateStep_idem cy (jsTrim l0)
    | false =>
      simp only [Bool.false_eq_true, if_false]
      refine normCore_fix cy false false false (jsTrim l0) ?_ ?_ ?_ ?_
      · exact jsTrim_eq_self (jsTrim_headNot l0) (jsTrim_lastNot l0)
      · intro hc
        cases hc
      · intro hc
        cases hc
      · intro hc
        cases hc

/-- Idempotence of the pipeline whenever whitespace removal is on or
leading-zero removal is off. -/
theorem normCore_idem (cy : Nat) (trim za da : Bool) (l0 : List Char)
    (h : trim = true ∨ za = false) :
    normCore cy trim za da (normCore cy trim za da l0) =
      normCore cy trim za da l0 := by
  rcases h with rfl | rfl
  · exact normCore_idem_trim cy za da l0
  · exact normCore_idem_noza cy trim da l0

/-- Key-mapping-free config with `trimWhitespace` off and leading-zero
removal on field `"F"` of Source A (the C3 counterexample instance). -/
def cfgZeroNoTrim : ComparisonConfig := ⟨[], rulesZeroNoTrim⟩

/-- **C3** (counterexample).  The normalizer is *not* idempotent for
every rule set: with `trimWhitespace` disabled and leading-zero removal
applying to the field, the value `"00 abc"` normalizes to `" abc"`
(zeros stripped, exposing interior whitespace at the front), and a
second pass trims that whitespace away, giving `"abc"` — so
`normalize(normalize(v)) ≠ normalize(v)`. -/
theorem c3_not_idempotent_counterexample :
    normalizeValue 2026
        (.str (normalizeValue 2026 (.str "00 abc") "F" cfgZeroNoTrim true))
        "F" cfgZeroNoTrim true ≠
      normalizeValue 2026 (.str "00 abc") "F" cfgZeroNoTrim true := by
  decide

/-- **C3** (amended).  The normalizer is idempotent for every string
value, field, side, and clock year, under every rule set in which
`trimWhitespace` is enabled or leading-zero removal does not apply to
the field on that side — i.e. except in exactly the situation of the
counterexample, where stripped zeros can expose interior whitespace
that only the second pass trims. -/
theorem c3_normalize_idempotent_amended (cy : Nat) (v fieldName : String)
    (config : ComparisonConfig) (isSourceA : Bool)
    (h : config.rules.trimWhitespace = true ∨
      zerosApply config fieldName isSourceA = false) :
    normalizeValue cy
        (.str (normalizeValue cy (.str v) fieldName config isSourceA))
        fieldName config isSourceA =
      normalizeValue cy (.str v) fieldName config isSourceA := by
  unfold normalizeValue
  exact congrArg String.mk (normCore_idem cy config.rules.trimWhitespace
    (zerosApply config fieldName isSourceA)
    (datesApply config fieldName isSourceA) v.data h)

/-- Witness for `c3_normalize_idempotent_amended`. -/
theorem c3_normalize_idempotent_amended_witness :
    normalizeValue 2026
        (.str (normalizeValue 2026 (.str " 0x ") "V" cfgV true)) "V" cfgV true =
      normalizeValue 2026 (.str " 0x ") "V" cfgV true :=
  c3_normalize_idempotent_amended 2026 " 0x " "V" cfgV true (Or.inl rfl)

end DataCompare
